import Mathlib

/-!
Verification development for the luciko import pipeline.

The definitions below are a shallow embedding of the import normalization
and deduplicating merge pipeline of the repository:

* `src/store/db.ts` — the import-merge engine (`importMessages`,
  `importPosts`, `buildAttachmentKey`, `buildMediaKey`,
  `dedupeAttachments`, `dedupeMedia`, `reactionsEqual`,
  `normalizeReactions`);
* `src/importers/utils.ts` — `getAttachmentType`;
* `src/importers/whatsapp/parser.ts` — `parseWhatsAppZip` and its helpers
  (`buildContent`, `buildExternalId`, `resolveSender`, `parseReactions`);
* `src/importers/googlechat/parser.ts` — `parseGoogleChatZip`;
* `src/importers/imessage/parser.ts` — `parseIMessageJson`;
* `src/importers/facebook/posts.ts` — `parseFacebookPostsZip`.

Modelling conventions, used uniformly:

* JavaScript strings are `String`; a missing (`undefined`) string field is
  either the empty string (CSV row lookups default to `''`) or an
  `Option String` where the source distinguishes `undefined` from `''`.
  JavaScript truthiness on an optional string is `truthyS` (false for
  `none` and for `some ""`).
* Binary blobs are byte lists together with the MIME type that
  `JSZip`/`Blob` reports (`Blob.btype`); `blob.size` is the byte count.
* Epoch-millisecond timestamps are `Int`.
* The SHA-256 digest of `hashBlob` is an external crypto primitive
  (`globalThis.crypto.subtle`); every definition that hashes takes it as
  an explicit function argument `hb : Blob → String`, with `""` meaning
  "digest unavailable" exactly as in the source.
* `uuidv4()` is an external source of fresh identifiers; parsers take a
  supply `uuid : Nat → String` and consume indices in source order.
* Environment-dependent primitives that no claim inspects internally
  (`Date` parsing from source-specific strings, `Date.toISOString`,
  zip-entry lookup, the DOM) are abstracted as function arguments; all
  control flow that consumes their results is translated faithfully.
* The IndexedDB stores are association structures: `putById` is a
  keyPath-`id` `put` (replace or append), `findByExternalId` is
  `index('externalId').get`, and the blob store is keyed by attachment id.
* In-place mutation in the source (the `contentHash` caching done by
  `buildAttachmentKey`/`buildMediaKey`, and the element mutation of an
  existing record's attachment array) is modelled by returning the updated
  value alongside the computed key and threading it explicitly.
-/

/-- JavaScript truthiness of an optional string: `undefined` and `''` are
falsy, every other string is truthy. -/
def truthyS : Option String → Bool
  | none => false
  | some s => s ≠ ""

/-- JavaScript `a || b` on strings (empty string is falsy). -/
def jsOr (a b : String) : String :=
  if a ≠ "" then a else b

/-- JavaScript `a || b` on optional strings. -/
def optOr (a b : Option String) : Option String :=
  if truthyS a then a else b

/-- Character-list implementation of `String.toLowerCase` (kernel
computable; JS `toLowerCase` on the extension alphabet is per-character
lowering). -/
def strToLower (s : String) : String := ⟨s.data.map Char.toLower⟩

/-- Character-list split on a single separator character, matching
`String.split(sep)` for one-character separators (the only kind the
sources use): `"" ↦ [""]`, separators delimit possibly-empty fields. -/
def splitCharAux (c : Char) : List Char → List Char → List String
  | [], acc => [⟨acc.reverse⟩]
  | x :: xs, acc =>
    if x = c then ⟨acc.reverse⟩ :: splitCharAux c xs []
    else splitCharAux c xs (x :: acc)

/-- `String.split` on a single separator character. -/
def splitChar (c : Char) (s : String) : List String := splitCharAux c s.data []

/-- Character-list implementation of `String.trim` (JS `trim` strips
leading and trailing whitespace). -/
def strTrim (s : String) : String :=
  ⟨((s.data.dropWhile Char.isWhitespace).reverse.dropWhile Char.isWhitespace).reverse⟩

/-- JS `String.includes(c)` for a single character. -/
def strContains (s : String) (c : Char) : Bool := s.data.contains c

/-- Kernel-computable lexicographic comparison of character lists,
modelling the total order `localeCompare` induces on the reaction-emoji
strings. -/
def charListLE : List Char → List Char → Bool
  | [], _ => true
  | _ :: _, [] => false
  | x :: xs, y :: ys => if x = y then charListLE xs ys else decide (x < y)

/-- The string order used by the reaction comparator. -/
def strLE (a b : String) : Bool := charListLE a.data b.data

/-- Association-list `get` for a string-keyed JavaScript `Map`. -/
def alistGet {α : Type} : List (String × α) → String → Option α
  | [], _ => none
  | p :: rest, k => if p.1 = k then some p.2 else alistGet rest k

/-- Association-list `set` for a string-keyed JavaScript `Map`: replace in
place when the key exists (keeping insertion order), else append. -/
def alistSet {α : Type} : List (String × α) → String → α → List (String × α)
  | [], k, v => [(k, v)]
  | p :: rest, k, v => if p.1 = k then (k, v) :: rest else p :: alistSet rest k v

/-- Association-list `has`. -/
def alistHas {α : Type} (m : List (String × α)) (k : String) : Bool :=
  (alistGet m k).isSome

/-- A binary payload: the bytes plus the MIME type the `Blob` reports
(`blob.type`, possibly `""`). `blob.size` is the byte count. -/
structure Blob where
  data : List Nat
  btype : String
deriving DecidableEq, Repr

/-- `blob.size`. -/
def Blob.size (b : Blob) : Nat := b.data.length

/-- One `{emoji, count}` reaction entry. -/
structure Reaction where
  emoji : String
  count : Nat
deriving DecidableEq, Repr

/-- Attachment metadata as stored on a `Message`
(`src/types/chat.ts`): `file` is the transient binary payload, and
`contentHash` the cached SHA-256 digest when available. -/
structure Attachment where
  id : String
  atype : String
  fileName : String
  mimeType : Option String
  size : Option Nat
  file : Option Blob
  contentHash : Option String
deriving DecidableEq, Repr

/-- A normalized chat message (`src/types/chat.ts`). A missing
`attachments`/`reactions` array is modelled as `[]` (the source treats
`undefined` and `[]` identically in every consuming branch). -/
structure Message where
  id : String
  chatId : String
  senderId : String
  content : String
  timestamp : Int
  status : String
  attachments : List Attachment
  quotedText : Option String
  quotedSender : Option String
  reactions : List Reaction
  source : Option String
  externalId : Option String
deriving DecidableEq, Repr

/-- Post media metadata (`src/types/posts.ts`), with the `sourceUri`
archive-relative path used by the posts dedup key. -/
structure PostMedia where
  id : String
  ptype : String
  fileName : String
  mimeType : Option String
  size : Option Nat
  file : Option Blob
  contentHash : Option String
  sourceUri : Option String
deriving DecidableEq, Repr

/-- A normalized post record (`src/types/posts.ts`). -/
structure PostRecord where
  id : String
  timestamp : Int
  authorName : Option String
  text : Option String
  activity : Option String
  media : List PostMedia
  linkUrl : Option String
  source : String
  externalId : Option String
deriving DecidableEq, Repr

/-- Message store `put` under keyPath `id`: replace every record carrying
the same primary key, else append. -/
def putById (store : List Message) (m : Message) : List Message :=
  if store.any (fun r => decide (r.id = m.id)) then
    store.map (fun r => if r.id = m.id then m else r)
  else store ++ [m]

/-- The `externalId` index lookup: first stored record whose `externalId`
equals the requested key. -/
def findByExternalId (store : List Message) (e : String) : Option Message :=
  store.find? (fun r => decide (r.externalId = some e))

/-- State of one `importMessages` transaction: the message metadata store,
the blob store keyed by attachment id, and the running imported counter. -/
structure ImportState where
  store : List Message
  blobs : List (String × Blob)
  imported : Nat
deriving DecidableEq, Repr

/-- Comparator used by `normalizeReactions` (`a.emoji.localeCompare(b.emoji)`
with the stable `Array.prototype.sort`). -/
def reactionLE (a b : Reaction) : Prop := strLE a.emoji b.emoji = true

instance : DecidableRel reactionLE := fun a b =>
  inferInstanceAs (Decidable (strLE a.emoji b.emoji = true))

/-- `normalizeReactions` from `importMessages`: a missing array becomes `[]`
and the entries are sorted (stably) by emoji. -/
def normalizeReactions (l : List Reaction) : List Reaction :=
  List.insertionSort reactionLE l

/-- `reactionsEqual` from `importMessages`: equal length and pointwise
equal `(emoji, count)` after normalization. -/
def reactionsEqual (a b : List Reaction) : Bool :=
  let left := normalizeReactions a
  let right := normalizeReactions b
  decide (left.length = right.length) &&
    (left.zip right).all (fun p => decide (p.1.emoji = p.2.emoji) && decide (p.1.count = p.2.count))

/-- Metadata fallback key of `buildAttachmentKey`:
`meta:${att.mimeType ?? ''}:${att.size ?? ''}`. -/
def attachmentMetaKey (a : Attachment) : String :=
  "meta:" ++ a.mimeType.getD "" ++ ":" ++ (match a.size with | some n => toString n | none => "")

/-- `buildAttachmentKey` from `importMessages` (messages side): an
already-known truthy `contentHash` wins; else hash the binary payload when
present and the digest is non-empty, caching it back onto the attachment;
else the `meta:mimeType:size` fallback. Returns the key together with the
(possibly hash-cached) attachment, modelling the in-place mutation. -/
def buildAttachmentKey (hb : Blob → String) (a : Attachment) : String × Attachment :=
  if truthyS a.contentHash then ("hash:" ++ a.contentHash.getD "", a)
  else
    match a.file with
    | some b =>
      let h := hb b
      if h ≠ "" then ("hash:" ++ h, { a with contentHash := some h })
      else (attachmentMetaKey a, a)
    | none => (attachmentMetaKey a, a)

/-- One step of `dedupeAttachments` from `importMessages`: keep the first
attachment per content-identity key, in insertion order. (The source
returns `undefined` for an empty input; every call site guards on
non-emptiness, so the model returns a plain list.) -/
def dedupeStep (hb : Blob → String) (seen : List (String × Attachment)) (a : Attachment) :
    List (String × Attachment) :=
  let ka := buildAttachmentKey hb a
  if alistHas seen ka.1 then seen else seen ++ [(ka.1, ka.2)]

/-- `dedupeAttachments`, the fold of `dedupeStep` followed by
`Array.from(seen.values())`. -/
def dedupeAttachments (hb : Blob → String) (atts : List Attachment) : List Attachment :=
  (atts.foldl (dedupeStep hb) []).map (·.2)

/-- The normalization pass at the top of `importMessages`: dedupe each
message's attachments when it has any. -/
def normalizeMessage (hb : Blob → String) (m : Message) : Message :=
  if m.attachments.isEmpty then m
  else { m with attachments := dedupeAttachments hb m.attachments }

/-- State of the per-incoming-attachment loop of the upgrade case of
`importMessages`. -/
structure AttLoopState where
  updated : List Attachment
  byKey : List (String × Attachment)
  blobs : List (String × Blob)
  wasUpdated : Bool
deriving Repr

/-- One iteration of the upgrade-case attachment loop: an incoming
attachment without a binary payload is ignored; one with a payload is
keyed, then either appended (blob stored under its own id) when the key is
unseen, or its blob is rewritten under the existing attachment's id. -/
def enrichAttachmentStep (hb : Blob → String) (st : AttLoopState) (na : Attachment) :
    AttLoopState :=
  match na.file with
  | none => st
  | some f =>
    let kna := buildAttachmentKey hb na
    match alistGet st.byKey kna.1 with
    | none =>
      { updated := st.updated ++ [{ kna.2 with file := none }]
        byKey := alistSet st.byKey kna.1 kna.2
        blobs := alistSet st.blobs kna.2.id f
        wasUpdated := true }
    | some ea =>
      { st with blobs := alistSet st.blobs ea.id f, wasUpdated := true }

/-- Result of the upgrade (enrichment) case of `importMessages` for one
found record. -/
structure EnrichResult where
  record : Message
  blobs : List (String × Blob)
  wasUpdated : Bool
deriving Repr

/-- The `existingByKey` construction of the upgrade case of
`importMessages`: recompute each existing attachment's key (threading the
cached hash, modelling the element mutation) and index the attachments by
key, later entries overwriting earlier ones as `Map.set` does. -/
def buildExistingByKey (hb : Blob → String) (atts : List Attachment) :
    List Attachment × List (String × Attachment) :=
  atts.foldl
    (fun (acc : List Attachment × List (String × Attachment)) a =>
      let ka := buildAttachmentKey hb a
      (acc.1 ++ [ka.2], alistSet acc.2 ka.1 ka.2))
    ([], [])

/-- The attachment half of the upgrade case of `importMessages` (lines
building `updatedAttachments`/`existingByKey`, the attachment loop, and
the `content` resync). The content-identity index build recomputes each
existing attachment's key, threading the cached hash back into the record
as the source's element mutation does. -/
def enrichAttachments (hb : Blob → String) (blobs0 : List (String × Blob))
    (existing : Message) (msg : Message) : EnrichResult :=
  if msg.attachments.isEmpty then
    { record := existing, blobs := blobs0, wasUpdated := false }
  else
    let init := buildExistingByKey hb existing.attachments
    let st := msg.attachments.foldl (enrichAttachmentStep hb)
      { updated := init.1, byKey := init.2, blobs := blobs0, wasUpdated := false }
    if st.wasUpdated then
      { record := { existing with
          attachments := dedupeAttachments hb st.updated
          content := msg.content }
        blobs := st.blobs
        wasUpdated := true }
    else
      { record := { existing with attachments := init.1 }
        blobs := st.blobs
        wasUpdated := false }

/-- The upgrade case of `importMessages`: the attachment merge above, then
the reactions replacement. -/
def enrichExisting (hb : Blob → String) (blobs0 : List (String × Blob))
    (existing : Message) (msg : Message) : EnrichResult :=
  let afterAtt : EnrichResult := enrichAttachments hb blobs0 existing msg
  if !msg.reactions.isEmpty && !reactionsEqual afterAtt.record.reactions msg.reactions then
    { afterAtt with
      record := { afterAtt.record with reactions := msg.reactions }
      wasUpdated := true }
  else afterAtt

/-- The attachment-blob writes of the first-time-seen case of
`importMessages`: store each present binary payload under its
attachment's id. -/
def saveAttachmentBlobs (atts : List Attachment) (bs : List (String × Blob)) :
    List (String × Blob) :=
  atts.foldl
    (fun bs a => match a.file with | some f => alistSet bs a.id f | none => bs)
    bs

/-- One iteration of the main loop of `importMessages`: a truthy
`externalId` is looked up; a miss stores the blobs and the blob-stripped
record and counts it; a hit runs enrichment and counts only a real update;
a falsy `externalId` stores the record unconditionally (as is) and counts
it. -/
def importStep (hb : Blob → String) (st : ImportState) (msg : Message) : ImportState :=
  if truthyS msg.externalId then
    match findByExternalId st.store (msg.externalId.getD "") with
    | none =>
      let blobs1 := saveAttachmentBlobs msg.attachments st.blobs
      let msgToStore := { msg with attachments := msg.attachments.map (fun a => { a with file := none }) }
      { store := putById st.store msgToStore, blobs := blobs1, imported := st.imported + 1 }
    | some existing =>
      let er := enrichExisting hb st.blobs existing msg
      if er.wasUpdated then
        { store := putById st.store er.record, blobs := er.blobs, imported := st.imported + 1 }
      else
        { st with blobs := er.blobs }
  else
    { st with store := putById st.store msg, imported := st.imported + 1 }

/-- `importMessages` from `src/store/db.ts`: normalize every message's
attachment list, then fold the per-message import step over the batch,
starting from the given store contents with the imported counter at 0. -/
def importMessages (hb : Blob → String) (store0 : List Message)
    (blobs0 : List (String × Blob)) (msgs : List Message) : ImportState :=
  (msgs.map (normalizeMessage hb)).foldl (importStep hb)
    { store := store0, blobs := blobs0, imported := 0 }

/-- Post store `put` under keyPath `id`. -/
def putPostById (store : List PostRecord) (p : PostRecord) : List PostRecord :=
  if store.any (fun r => decide (r.id = p.id)) then
    store.map (fun r => if r.id = p.id then p else r)
  else store ++ [p]

/-- The posts `externalId` index lookup. -/
def findPostByExternalId (store : List PostRecord) (e : String) : Option PostRecord :=
  store.find? (fun r => decide (r.externalId = some e))

/-- State of one `importPosts` transaction. -/
structure PostImportState where
  store : List PostRecord
  blobs : List (String × Blob)
  imported : Nat
deriving Repr

/-- Metadata fallback key of `buildMediaKey`:
`meta:${media.fileName}:${media.mimeType ?? ''}:${media.size ?? ''}`. -/
def mediaMetaKey (m : PostMedia) : String :=
  "meta:" ++ m.fileName ++ ":" ++ m.mimeType.getD "" ++ ":" ++
    (match m.size with | some n => toString n | none => "")

/-- `buildMediaKey` from `importPosts` (posts side): known truthy
`contentHash`, else a fresh digest of the payload (cached back), else the
`uri:` key from a truthy `sourceUri`, else the
`meta:fileName:mimeType:size` tuple. -/
def buildMediaKey (hb : Blob → String) (m : PostMedia) : String × PostMedia :=
  if truthyS m.contentHash then ("hash:" ++ m.contentHash.getD "", m)
  else
    match m.file with
    | some b =>
      let h := hb b
      if h ≠ "" then ("hash:" ++ h, { m with contentHash := some h })
      else if truthyS m.sourceUri then ("uri:" ++ m.sourceUri.getD "", m)
      else (mediaMetaKey m, m)
    | none =>
      if truthyS m.sourceUri then ("uri:" ++ m.sourceUri.getD "", m)
      else (mediaMetaKey m, m)

/-- `dedupeMedia` from `importPosts`: keep the first media entry per
content-identity key, rewriting the kept entry's `id` to the key itself. -/
def dedupeMedia (hb : Blob → String) (media : List PostMedia) : List PostMedia :=
  (media.foldl
    (fun (seen : List (String × PostMedia)) item =>
      let km := buildMediaKey hb item
      if alistHas seen km.1 then seen else seen ++ [(km.1, { km.2 with id := km.1 })])
    []).map (·.2)

/-- The normalization pass at the top of `importPosts`. -/
def normalizePost (hb : Blob → String) (p : PostRecord) : PostRecord :=
  if p.media.isEmpty then p
  else { p with media := dedupeMedia hb p.media }

/-- Result of the enrichment case of `importPosts`. -/
structure PostEnrichResult where
  record : PostRecord
  blobs : List (String × Blob)
  wasUpdated : Bool
deriving Repr

/-- The media-merge half of the enrichment case of `importPosts`: merge
incoming media by media `id` (append unseen entries blob-stripped, rewrite
the blob under the existing entry's id otherwise — without marking an
update). -/
def enrichPostMedia (blobs0 : List (String × Blob)) (existing : PostRecord)
    (post : PostRecord) : PostEnrichResult :=
  if post.media.isEmpty then
    { record := existing, blobs := blobs0, wasUpdated := false }
  else
    let byId := existing.media.foldl (fun acc m => alistSet acc m.id m) []
    let st := post.media.foldl
      (fun (acc : List PostMedia × List (String × Blob) × Bool) media =>
        match alistGet byId media.id with
        | none =>
          let blobs1 := match media.file with
            | some f => alistSet acc.2.1 media.id f
            | none => acc.2.1
          (acc.1 ++ [{ media with file := none }], blobs1, true)
        | some current =>
          match media.file with
          | some f => (acc.1, alistSet acc.2.1 current.id f, acc.2.2)
          | none => acc)
      (existing.media, blobs0, false)
    if st.2.2 then
      { record := { existing with media := st.1 }, blobs := st.2.1, wasUpdated := true }
    else
      { record := existing, blobs := st.2.1, wasUpdated := false }

/-- The enrichment case of `importPosts`: the media merge, then backfill
`text`, `activity` and `linkUrl` only when falsy on the existing record. -/
def enrichPost (blobs0 : List (String × Blob)) (existing : PostRecord)
    (post : PostRecord) : PostEnrichResult :=
  let afterMedia : PostEnrichResult := enrichPostMedia blobs0 existing post
  let r0 := afterMedia.record
  let step1 :=
    if !truthyS r0.text && truthyS post.text then
      ({ r0 with text := post.text }, true)
    else (r0, afterMedia.wasUpdated)
  let step2 :=
    if !truthyS step1.1.activity && truthyS post.activity then
      ({ step1.1 with activity := post.activity }, true)
    else step1
  let step3 :=
    if !truthyS step2.1.linkUrl && truthyS post.linkUrl then
      ({ step2.1 with linkUrl := post.linkUrl }, true)
    else step2
  { record := step3.1, blobs := afterMedia.blobs, wasUpdated := step3.2 }

/-- One iteration of the main loop of `importPosts` (hashing happens only
in the normalization pass, so this step needs no digest function). -/
def importPostStep (st : PostImportState) (post : PostRecord) :
    PostImportState :=
  let existing :=
    if truthyS post.externalId then findPostByExternalId st.store (post.externalId.getD "")
    else none
  match existing with
  | none =>
    let blobs1 := post.media.foldl
      (fun bs m => match m.file with | some f => alistSet bs m.id f | none => bs)
      st.blobs
    let postToStore := { post with media := post.media.map (fun m => { m with file := none }) }
    { store := putPostById st.store postToStore, blobs := blobs1, imported := st.imported + 1 }
  | some ex =>
    let er := enrichPost st.blobs ex post
    if er.wasUpdated then
      { store := putPostById st.store er.record, blobs := er.blobs, imported := st.imported + 1 }
    else
      { st with blobs := er.blobs }

/-- `importPosts` from `src/store/db.ts`. -/
def importPosts (hb : Blob → String) (store0 : List PostRecord)
    (blobs0 : List (String × Blob)) (posts : List PostRecord) : PostImportState :=
  (posts.map (normalizePost hb)).foldl importPostStep
    { store := store0, blobs := blobs0, imported := 0 }

/-- Extension lists of `getAttachmentType` in `src/importers/utils.ts`. -/
def imageExts : List String := ["jpg", "jpeg", "png", "webp", "gif", "heic", "heif", "thumb"]

/-- Video extension list of `getAttachmentType`. -/
def videoExts : List String := ["mp4", "mov", "m4v", "3gp"]

/-- Audio extension list of `getAttachmentType`. -/
def audioExts : List String := ["opus", "mp3", "wav", "ogg", "m4a", "aac"]

/-- The final dot-separated segment of a file name, lowercased:
`fileName.split('.').pop()?.toLowerCase()` (for a dotless name this is the
whole name; `split` never yields an empty array, so `pop` never misses). -/
def lastExt (fileName : String) : String :=
  strToLower ((splitChar '.' fileName).getLastD "")

/-- `getAttachmentType` from `src/importers/utils.ts`. -/
def getAttachmentType (fileName : String) : String :=
  let ext := lastExt fileName
  if imageExts.contains ext then "image"
  else if videoExts.contains ext then "video"
  else if audioExts.contains ext then "audio"
  else "document"

/-- The WhatsApp parser's local `getAttachmentType`
(`src/importers/whatsapp/parser.ts`): same shape, without the `thumb`
image extension. -/
def waGetAttachmentType (fileName : String) : String :=
  let ext := lastExt fileName
  if ["jpg", "jpeg", "png", "webp", "gif", "heic", "heif"].contains ext then "image"
  else if videoExts.contains ext then "video"
  else if audioExts.contains ext then "audio"
  else "document"

/-- Result shape common to all message parsers (`src/importers/types.ts`). -/
structure ParseResult where
  messages : List Message
  errors : List String
  logs : List String
deriving DecidableEq, Repr

/-- Ascending-timestamp comparator used by the parsers' final
`messages.sort((a, b) => a.timestamp.getTime() - b.timestamp.getTime())`
(a stable sort). -/
def tsLE (a b : Message) : Prop := a.timestamp ≤ b.timestamp

instance : DecidableRel tsLE := fun a b =>
  inferInstanceAs (Decidable (a.timestamp ≤ b.timestamp))

instance : IsTotal Message tsLE := ⟨fun a b => le_total a.timestamp b.timestamp⟩

instance : IsTrans Message tsLE := ⟨fun _ _ _ h h' => le_trans h h'⟩

/-- Injective rendering of an epoch-millisecond timestamp, modelling
`Date.toISOString()` (which is injective on milliseconds). -/
def isoOf (t : Int) : String := toString t

/-- Canonical participant name (WhatsApp/iMessage parsers). -/
def LUCY_NAME : String := "Luciana Milella"

/-- Canonical participant name (WhatsApp/iMessage parsers). -/
def VALERIO_NAME : String := "Valerio Donati"

/-- Which fixed participant a WhatsApp export file belongs to, as decided
by `getExportOwner` from the hardcoded JID sets. -/
inductive ExportOwner
  | luciana
  | valerio
deriving DecidableEq, Repr

/-- `resolveSender` from the WhatsApp parser: map the row's `is_from_me`
flag through the export owner to one of the two canonical names. -/
def resolveSender (isFromMe : Bool) (owner : ExportOwner) : String :=
  if isFromMe then
    match owner with
    | .luciana => LUCY_NAME
    | .valerio => VALERIO_NAME
  else
    match owner with
    | .luciana => VALERIO_NAME
    | .valerio => LUCY_NAME

/-- One WhatsApp CSV row after `toRowObject`: every column is a string and
a missing column is `''`. -/
structure WARow where
  is_from_me : String
  message_type : String
  message_date_iso : String
  sent_date_iso : String
  text : String
  media_title : String
  media_author : String
  vcard_name : String
  vcard_string : String
  stanza_id : String
  message_pk : String
  media_local_path : String
  quoted_text : String
  quoted_message_pk : String
  quoted_stanza_id : String
  reaction_emojis : String
deriving DecidableEq, Repr

/-- `SKIP_MESSAGE_TYPES` from the WhatsApp parser. -/
def SKIP_MESSAGE_TYPES : List String := ["10", "59", "66"]

/-- `buildContent` from the WhatsApp parser: deleted-message marker for
type 14, else the `text || media_title || vcard_name || media_author`
fallback chain (the vCard name only for message type 4). -/
def buildContent (row : WARow) : String :=
  let text := strTrim row.text
  let mediaTitle := strTrim row.media_title
  let mediaAuthor := strTrim row.media_author
  let messageType := strTrim row.message_type
  let vcardName := if messageType = "4" then strTrim row.vcard_name else ""
  if messageType = "14" then "This message was deleted"
  else jsOr (jsOr (jsOr text mediaTitle) vcardName) mediaAuthor

/-- `buildExternalId` from the WhatsApp parser: the trimmed `stanza_id`
when present, else `timestamp_sender_content_attachmentNames` built from
the raw (untrimmed) ISO date columns. -/
def buildExternalId (row : WARow) (senderId content attachmentNames : String) : String :=
  let stanzaId := strTrim row.stanza_id
  if stanzaId ≠ "" then stanzaId
  else
    let timestamp := jsOr row.message_date_iso row.sent_date_iso
    timestamp ++ "_" ++ senderId ++ "_" ++ content ++ "_" ++ attachmentNames

/-- `parseReactions` from the WhatsApp parser: split `reaction_emojis` on
`|`, trim, drop empties, then count occurrences per emoji in
first-appearance order. -/
def parseReactions (row : WARow) : List Reaction :=
  let emojisRaw := strTrim row.reaction_emojis
  if emojisRaw = "" then []
  else
    let emojis := ((splitChar '|' emojisRaw).map strTrim).filter (fun e => e ≠ "")
    if emojis.isEmpty then []
    else
      (emojis.foldl
        (fun (counts : List (String × Nat)) e =>
          match alistGet counts e with
          | some n => alistSet counts e (n + 1)
          | none => alistSet counts e 1)
        []).map (fun p => { emoji := p.1, count := p.2 })

/-- The first pass of `parseWhatsAppZip`: build the
`senderByMessagePk`/`senderByStanzaId` indices over the entire row set. -/
def waSenderMaps (owner : ExportOwner) (rows : List WARow) :
    List (String × String) × List (String × String) :=
  rows.foldl
    (fun acc row =>
      let senderId := resolveSender (strTrim row.is_from_me = "1") owner
      let messagePk := strTrim row.message_pk
      let stanzaId := strTrim row.stanza_id
      let byPk := if messagePk ≠ "" then alistSet acc.1 messagePk senderId else acc.1
      let bySt := if stanzaId ≠ "" then alistSet acc.2 stanzaId senderId else acc.2
      (byPk, bySt))
    ([], [])

/-- Accumulator of the main WhatsApp row loop (`k` is the next uuid
index). -/
structure WAState where
  messages : List Message
  errors : List String
  logs : List String
  k : Nat
deriving DecidableEq, Repr

/-- The attachment block of one WhatsApp row: read the referenced media
entry from the archive (a miss only logs), classify it, and build the
single attachment record, threading the uuid index. (The source's
per-path blob cache is elided: the zip lookup is a pure function here, so
caching is semantically invisible.) -/
def waAttachmentScan (uuid : Nat → String) (zipf : String → Option Blob) (row : WARow)
    (mediaLocalPath : String) (k : Nat) : List Attachment × List String × Nat :=
  if mediaLocalPath ≠ "" then
    match zipf mediaLocalPath with
    | none => ([], ["Missing media file: " ++ mediaLocalPath], k)
    | some blob =>
      let fileName := jsOr ((splitChar '/' mediaLocalPath).getLastD "") mediaLocalPath
      let hintStr := if strContains row.vcard_string '/' then row.vcard_string else ""
      ([{ id := uuid k
          atype := waGetAttachmentType fileName
          fileName := fileName
          mimeType := some (jsOr hintStr blob.btype)
          size := some blob.size
          file := some blob
          contentHash := none }], [], k + 1)
  else ([], [], k)

/-- One iteration of the main loop of `parseWhatsAppZip`: reject missing
or unparseable timestamps into `errors`, resolve sender and quoted
context, read the referenced media entry from the archive (a miss only
logs), suppress rows with no content, attachment or reaction, and emit the
normalized message. -/
def parseWhatsAppRow (uuid : Nat → String) (zipf : String → Option Blob)
    (parseDate : String → Option Int) (owner : ExportOwner) (chatId : String)
    (byPk bySt : List (String × String)) (st : WAState) (row : WARow) : WAState :=
  let messageType := strTrim row.message_type
  let isFromMe := strTrim row.is_from_me = "1"
  let timestampIso := jsOr (strTrim row.message_date_iso) (strTrim row.sent_date_iso)
  if timestampIso = "" then
    { st with errors := st.errors ++
        ["Missing timestamp for message_pk " ++ jsOr row.message_pk "unknown"] }
  else
    match parseDate timestampIso with
    | none =>
      { st with errors := st.errors ++
          ["Invalid timestamp \"" ++ timestampIso ++ "\" for message_pk " ++
            jsOr row.message_pk "unknown"] }
    | some ts =>
      let senderId := resolveSender isFromMe owner
      let content := buildContent row
      let mediaLocalPath := strTrim row.media_local_path
      let quotedText := strTrim row.quoted_text
      let quotedMessagePk := strTrim row.quoted_message_pk
      let quotedStanzaId := strTrim row.quoted_stanza_id
      let q1 := if quotedMessagePk ≠ "" then alistGet byPk quotedMessagePk else none
      let quotedSender :=
        if truthyS q1 then q1
        else
          let q2 := if quotedStanzaId ≠ "" then alistGet bySt quotedStanzaId else none
          if truthyS q2 then q2 else none
      let reactions := parseReactions row
      let attLog := waAttachmentScan uuid zipf row mediaLocalPath st.k
      let attachments := attLog.1
      let logs1 := st.logs ++ attLog.2.1
      let k1 := attLog.2.2
      let hasContent : Prop := strTrim content ≠ ""
      let hasAttachments : Prop := attachments ≠ []
      let hasReactions : Prop := reactions ≠ []
      if SKIP_MESSAGE_TYPES.contains messageType ∧ ¬hasContent ∧ ¬hasAttachments ∧ ¬hasReactions then
        { st with logs := logs1, k := k1 }
      else if ¬hasContent ∧ ¬hasAttachments ∧ ¬hasReactions then
        { st with logs := logs1, k := k1 }
      else
        let attachmentNames := String.intercalate "," (attachments.map (·.fileName))
        let externalId := buildExternalId row senderId content attachmentNames
        { messages := st.messages ++
            [{ id := uuid k1
               chatId := chatId
               senderId := senderId
               content := content
               timestamp := ts
               status := "read"
               attachments := attachments
               quotedText := if quotedText ≠ "" then some quotedText else none
               quotedSender := quotedSender
               reactions := reactions
               source := none
               externalId := some externalId }]
          errors := st.errors
          logs := logs1
          k := k1 + 1 }

/-- `parseWhatsAppZip` from `src/importers/whatsapp/parser.ts`, from the
point where the CSV rows have been tokenized: the sender-index prepass,
then the main row loop. The returned message list is in row order — this
parser does not sort its output. -/
def parseWhatsAppZip (uuid : Nat → String) (zipf : String → Option Blob)
    (parseDate : String → Option Int) (owner : ExportOwner) (chatId : String)
    (rows : List WARow) : ParseResult :=
  let maps := waSenderMaps owner rows
  let st := rows.foldl (parseWhatsAppRow uuid zipf parseDate owner chatId maps.1 maps.2)
    { messages := [], errors := [], logs := [], k := 0 }
  { messages := st.messages, errors := st.errors, logs := st.logs }

/-- One entry of `attached_files` in a Google Chat `messages.json`
record. -/
structure GCFile where
  original_name : Option String
  export_name : Option String
deriving DecidableEq, Repr

/-- One Google Chat `messages.json` record (`creator.name` flattened; a
missing `attached_files` array is `[]`, which the source's guard treats
identically). -/
structure GCRecord where
  creator_name : Option String
  created_date : Option String
  text : Option String
  attached_files : List GCFile
  message_id : Option String
deriving DecidableEq, Repr

/-- Accumulator of the Google Chat record loop: messages, the diagnostic
log, the failed-date counter driving the 5-line log cap, the
one-shot sample flag, and the next uuid index. -/
structure GCState where
  messages : List Message
  logs : List String
  failedDates : Nat
  loggedSample : Bool
  k : Nat
deriving DecidableEq, Repr

/-- One step of the attachment loop of a Google Chat record: resolve a
truthy `export_name` against the archive (`baseDir` prefixing), log a
miss, or build the attachment record, threading the uuid index. -/
def gcAttachmentStep (uuid : Nat → String) (zipf : String → Option Blob) (baseDir : String)
    (acc : List Attachment × List String × Nat) (fe : GCFile) :
    List Attachment × List String × Nat :=
  let exportName := strTrim (fe.export_name.getD "")
  if exportName = "" then acc
  else
    let resolved := if baseDir ≠ "" then baseDir ++ "/" ++ exportName else exportName
    match zipf resolved with
    | none => (acc.1, acc.2.1 ++ ["Missing attachment file: " ++ resolved], acc.2.2)
    | some blob =>
      let fileName := jsOr (fe.original_name.getD "") exportName
      (acc.1 ++
        [{ id := uuid acc.2.2
           atype := getAttachmentType fileName
           fileName := fileName
           mimeType := some blob.btype
           size := some blob.size
           file := some blob
           contentHash := none }], acc.2.1, acc.2.2 + 1)

/-- The attachment loop of one Google Chat record, folded over its
`attached_files`. -/
def gcAttachmentScan (uuid : Nat → String) (zipf : String → Option Blob) (baseDir : String)
    (k0 : Nat) (files : List GCFile) : List Attachment × List String × Nat :=
  files.foldl (gcAttachmentStep uuid zipf baseDir) ([], [], k0)

/-- One iteration of the record loop of `parseGoogleChatZip`. A date that
fails to parse only updates the failure counter and the diagnostic log
(the first five failures individually, plus a one-time normalized sample,
abstracted as `sampleLogs`) — nothing is added to `errors`. A parsed
record resolves its attachments against the archive (a missing entry only
logs), is suppressed when it has neither text nor attachments, and is
otherwise emitted with its `gchat_`-prefixed external id. -/
def parseGoogleChatRecord (uuid : Nat → String) (zipf : String → Option Blob)
    (parseDate : String → Option Int) (sampleLogs : String → List String)
    (baseDir chatId : String) (st : GCState) (r : GCRecord) : GCState :=
  let sender := strTrim (r.creator_name.getD "")
  let timestampRaw := r.created_date.getD ""
  match parseDate timestampRaw with
  | none =>
    let fd := st.failedDates + 1
    let logs1 :=
      if fd ≤ 5 then st.logs ++ ["Failed to parse date: " ++ timestampRaw] else st.logs
    let sampled :=
      if !st.loggedSample ∧ fd = 1 then (logs1 ++ sampleLogs timestampRaw, true)
      else (logs1, st.loggedSample)
    { st with logs := sampled.1, failedDates := fd, loggedSample := sampled.2 }
  | some ts =>
    let content := strTrim (r.text.getD "")
    let attState := gcAttachmentScan uuid zipf baseDir st.k r.attached_files
    let attachments := attState.1
    let logs1 := st.logs ++ attState.2.1
    let k1 := attState.2.2
    if content = "" ∧ attachments.isEmpty then
      { st with logs := logs1, k := k1 }
    else
      let attachmentNames := String.intercalate "," (attachments.map (·.fileName))
      let externalId :=
        if truthyS r.message_id then "gchat_" ++ r.message_id.getD ""
        else "gchat_" ++ isoOf ts ++ "_" ++ sender ++ "_" ++ content ++ "_" ++ attachmentNames
      { st with
        messages := st.messages ++
          [{ id := uuid k1
             chatId := chatId
             senderId := sender
             content := content
             timestamp := ts
             status := "read"
             attachments := attachments
             quotedText := none
             quotedSender := none
             reactions := []
             source := some "googlechat"
             externalId := some externalId }]
        logs := logs1
        k := k1 + 1 }

/-- `parseGoogleChatZip` from `src/importers/googlechat/parser.ts`, from
the point where `messages.json` has been located and decoded: the record
loop, the trailing aggregate failed-date log line, and the final ascending
sort by timestamp. This parser never writes to `errors`. -/
def parseGoogleChatZip (uuid : Nat → String) (zipf : String → Option Blob)
    (parseDate : String → Option Int) (sampleLogs : String → List String)
    (baseDir jsonFile chatId : String) (records : List GCRecord) : ParseResult :=
  let st0 : GCState :=
    { messages := []
      logs := ["Parsed " ++ toString records.length ++ " messages from " ++ jsonFile]
      failedDates := 0
      loggedSample := false
      k := 0 }
  let st := records.foldl
    (parseGoogleChatRecord uuid zipf parseDate sampleLogs baseDir chatId) st0
  let logsF :=
    if st.failedDates > 5 then
      st.logs ++ ["Failed to parse " ++ toString st.failedDates ++ " message dates in total."]
    else st.logs
  { messages := List.insertionSort tsLE st.messages, errors := [], logs := logsF }

/-- One record of an iMessage JSON export. -/
structure IRec where
  message_rowid : Option Int
  guid : Option String
  date : Option String
  is_from_me : Bool
  text : Option String
deriving DecidableEq, Repr

/-- One iteration of the record loop of `parseIMessageJson`: empty text
suppresses the row; an unparseable date (`new Date(...)` yielding `NaN`)
pushes a line onto `errors` and skips the row; otherwise the message is
emitted with its `imessage_`-prefixed external id. -/
def parseIMessageRecord (uuid : Nat → String) (parseDate : String → Option Int)
    (chatId : String) (st : WAState) (r : IRec) : WAState :=
  let text := strTrim (r.text.getD "")
  if text = "" then st
  else
    let dateRaw := r.date.getD ""
    match parseDate dateRaw with
    | none => { st with errors := st.errors ++ ["Failed to parse date: " ++ dateRaw] }
    | some ts =>
      let senderId := if r.is_from_me then LUCY_NAME else VALERIO_NAME
      let externalId :=
        if truthyS r.guid then "imessage_" ++ r.guid.getD ""
        else
          "imessage_" ++ (match r.message_rowid with | some n => toString n | none => "") ++
            "_" ++ isoOf ts ++ "_" ++ senderId ++ "_" ++ text
      { st with
        messages := st.messages ++
          [{ id := uuid st.k
             chatId := chatId
             senderId := senderId
             content := text
             timestamp := ts
             status := "read"
             attachments := []
             quotedText := none
             quotedSender := none
             reactions := []
             source := some "imessage"
             externalId := some externalId }]
        k := st.k + 1 }

/-- `parseIMessageJson` from `src/importers/imessage/parser.ts`, from the
point where the JSON has been decoded: the record loop followed by the
final ascending sort by timestamp. -/
def parseIMessageJson (uuid : Nat → String) (parseDate : String → Option Int)
    (chatId fileName : String) (records : List IRec) : ParseResult :=
  let st0 : WAState :=
    { messages := []
      errors := []
      logs := ["Parsed " ++ toString records.length ++ " messages from " ++ fileName]
      k := 0 }
  let st := records.foldl (parseIMessageRecord uuid parseDate chatId) st0
  { messages := List.insertionSort tsLE st.messages, errors := st.errors, logs := st.logs }

/-- Result shape of the Facebook posts parser. -/
structure ParsePostsResult where
  posts : List PostRecord
  errors : List String
  logs : List String
deriving DecidableEq, Repr

/-- Ascending-timestamp comparator for the posts parser's final
`posts.sort((a, b) => a.timestamp - b.timestamp)`. -/
def postTsLE (a b : PostRecord) : Prop := a.timestamp ≤ b.timestamp

instance : DecidableRel postTsLE := fun a b =>
  inferInstanceAs (Decidable (a.timestamp ≤ b.timestamp))

instance : IsTotal PostRecord postTsLE := ⟨fun a b => le_total a.timestamp b.timestamp⟩

instance : IsTrans PostRecord postTsLE := ⟨fun _ _ _ h h' => le_trans h h'⟩

/-- One entry of a posts-feed item's `data` array. -/
structure FBDataEntry where
  post : Option String
  update_timestamp : Option Int
deriving DecidableEq, Repr

/-- One entry of a posts-feed item's `attachments[].data` array
(`media.uri` and `external_context.url` flattened). -/
structure FBAttData where
  media_uri : Option String
  external_url : Option String
deriving DecidableEq, Repr

/-- One element of a posts-feed item's `attachments` array. -/
structure FBAttachment where
  data : List FBAttData
deriving DecidableEq, Repr

/-- One item of `your_posts__check_ins__photos_and_videos_*.json`. -/
structure PostsJsonItem where
  timestamp : Option Int
  title : Option String
  data : List FBDataEntry
  attachments : List FBAttachment
deriving DecidableEq, Repr

/-- One item of `your_uncategorized_photos.json` (`other_photos_v2`). -/
structure PhotoItem where
  uri : Option String
  creation_timestamp : Option Int
  description : Option String
deriving DecidableEq, Repr

/-- One item of `your_videos.json` (`videos_v2`). -/
structure VideoItem where
  uri : Option String
  creation_timestamp : Option Int
  description : Option String
  title : Option String
deriving DecidableEq, Repr

/-- `buildExternalId` from the Facebook posts parser: the `fbpost_`
prefix over a `|`-joined composite of source tag, timestamp, text,
activity, link URL and every media URI. -/
def fbBuildExternalId (source : String) (timestamp : Int)
    (text activity linkUrl : Option String) (mediaUris : List String) : String :=
  "fbpost_" ++ String.intercalate "|"
    ([source, toString timestamp, text.getD "", activity.getD "", linkUrl.getD ""] ++ mediaUris)

/-- `toPostMedia` from the Facebook posts parser: resolve the source URI
against the archive layout (`mapSourceUriToZipPath` and the zip-entry
lookup abstracted as `resolvePath`/`zipf`), log-and-drop misses, drop
non-image/video entries silently, and otherwise build the media record
(consuming one uuid). Returns the media option, the log lines produced,
and the next uuid index. -/
def toPostMedia (uuid : Nat → String) (resolvePath : String → Option String)
    (zipf : String → Option Blob) (uri : String) (k : Nat) :
    Option PostMedia × List String × Nat :=
  match resolvePath uri with
  | none => (none, ["Missing media file: " ++ uri], k)
  | some zipPath =>
    match zipf zipPath with
    | none => (none, ["Missing media entry: " ++ zipPath], k)
    | some blob =>
      let fileName := jsOr ((splitChar '/' zipPath).getLastD "") zipPath
      let t := getAttachmentType fileName
      if t ≠ "image" ∧ t ≠ "video" then (none, [], k)
      else
        (some
          { id := uuid k
            ptype := t
            fileName := fileName
            mimeType := if blob.btype ≠ "" then some blob.btype else none
            size := some blob.size
            file := some blob
            contentHash := none
            sourceUri := some uri }, [], k + 1)

/-- `detectOwnerName` from the Facebook posts parser: first owner name
matched out of the items' titles (the `/^(.+?)\s+ha\s+/i` capture plus the
truthiness check abstracted as `titleOwner`). -/
def detectOwnerName (titleOwner : String → Option String) (items : List PostsJsonItem) :
    Option String :=
  items.findSome? (fun item => titleOwner (item.title.getD ""))

/-- Accumulator of the posts parser loops. -/
structure FBState where
  posts : List PostRecord
  logs : List String
  k : Nat
deriving DecidableEq, Repr

/-- The JavaScript `item.timestamp ?? item.data?.find((entry) =>
entry.update_timestamp)?.update_timestamp ?? 0` chain: the item's own
timestamp when present, else the first truthy (non-zero)
`update_timestamp`, else 0. -/
def fbItemTimestamp (item : PostsJsonItem) : Int :=
  match item.timestamp with
  | some t => t
  | none =>
    match item.data.find? (fun e => match e.update_timestamp with
      | some t => decide (t ≠ 0)
      | none => false) with
    | some e => e.update_timestamp.getD 0
    | none => 0

/-- One iteration of the posts-feed loop of `parseFacebookPostsZip`:
derive the timestamp (defaulting to 0), the post text, the activity
title, the link URL (last truthy one wins) and the media URI list from the
item, materialize each media URI, suppress items with no content at all,
and emit the post with its composite external id. -/
def parseFBPostItem (uuid : Nat → String) (resolvePath : String → Option String)
    (zipf : String → Option Blob) (ownerName : Option String)
    (st : FBState) (item : PostsJsonItem) : FBState :=
  let timestamp := fbItemTimestamp item
  let postText :=
    match item.data.find? (fun e => truthyS e.post) with
    | some e => e.post
    | none => none
  let activity := item.title
  let linkMedia :=
    item.attachments.foldl
      (fun (acc : Option String × List String) a =>
        a.data.foldl
          (fun (acc2 : Option String × List String) entry =>
            let lu := if truthyS entry.external_url then entry.external_url else acc2.1
            let mu :=
              if truthyS entry.media_uri then acc2.2 ++ [entry.media_uri.getD ""] else acc2.2
            (lu, mu))
          acc)
      (none, [])
  let linkUrl := linkMedia.1
  let mediaUris := linkMedia.2
  let mediaState :=
    mediaUris.foldl
      (fun (acc : List PostMedia × List String × Nat) uri =>
        let r := toPostMedia uuid resolvePath zipf uri acc.2.2
        match r.1 with
        | some m => (acc.1 ++ [m], acc.2.1 ++ r.2.1, r.2.2)
        | none => (acc.1, acc.2.1 ++ r.2.1, r.2.2))
      ([], [], st.k)
  let media := mediaState.1
  let logs1 := st.logs ++ mediaState.2.1
  let k1 := mediaState.2.2
  if ¬truthyS postText ∧ ¬truthyS activity ∧ media.isEmpty ∧ ¬truthyS linkUrl then
    { st with logs := logs1, k := k1 }
  else
    { posts := st.posts ++
        [{ id := uuid k1
           timestamp := timestamp
           authorName := ownerName
           text := postText
           activity := activity
           media := media
           linkUrl := linkUrl
           source := "posts"
           externalId := some (fbBuildExternalId "posts" timestamp postText activity linkUrl mediaUris) }]
      logs := logs1
      k := k1 + 1 }

/-- One iteration of the uncategorized-photos loop: items without a truthy
URI or without resolvable media are skipped; the rest are emitted with the
`creation_timestamp ?? 0` default. -/
def parseFBPhotoItem (uuid : Nat → String) (resolvePath : String → Option String)
    (zipf : String → Option Blob) (ownerName : Option String)
    (st : FBState) (item : PhotoItem) : FBState :=
  if ¬truthyS item.uri then st
  else
    let uri := item.uri.getD ""
    let r := toPostMedia uuid resolvePath zipf uri st.k
    let logs1 := st.logs ++ r.2.1
    match r.1 with
    | none => { st with logs := logs1, k := r.2.2 }
    | some m =>
      let ts := item.creation_timestamp.getD 0
      { posts := st.posts ++
          [{ id := uuid r.2.2
             timestamp := ts
             authorName := ownerName
             text := item.description
             activity := none
             media := [m]
             linkUrl := none
             source := "photos"
             externalId := some (fbBuildExternalId "photos" ts item.description none none [uri]) }]
        logs := logs1
        k := r.2.2 + 1 }

/-- One iteration of the videos loop, mirroring the photos loop with the
`description || title` text fallback. -/
def parseFBVideoItem (uuid : Nat → String) (resolvePath : String → Option String)
    (zipf : String → Option Blob) (ownerName : Option String)
    (st : FBState) (item : VideoItem) : FBState :=
  if ¬truthyS item.uri then st
  else
    let uri := item.uri.getD ""
    let r := toPostMedia uuid resolvePath zipf uri st.k
    let logs1 := st.logs ++ r.2.1
    match r.1 with
    | none => { st with logs := logs1, k := r.2.2 }
    | some m =>
      let ts := item.creation_timestamp.getD 0
      let text := optOr item.description item.title
      { posts := st.posts ++
          [{ id := uuid r.2.2
             timestamp := ts
             authorName := ownerName
             text := text
             activity := none
             media := [m]
             linkUrl := none
             source := "videos"
             externalId := some (fbBuildExternalId "videos" ts text none none [uri]) }]
        logs := logs1
        k := r.2.2 + 1 }

/-- `parseFacebookPostsZip` from `src/importers/facebook/posts.ts`, from
the point where the three feed JSON files have been located and decoded
(an absent feed is the empty list — the source skips the corresponding
loop, which produces the same output): the posts feed with the owner-name
detection, the uncategorized-photos feed and the videos feed (both
propagating the owner name found so far), followed by the final ascending
sort by timestamp. This parser never writes to `errors`. -/
def parseFacebookPostsZip (uuid : Nat → String) (resolvePath : String → Option String)
    (zipf : String → Option Blob) (titleOwner : String → Option String)
    (items : List PostsJsonItem) (photos : List PhotoItem) (videos : List VideoItem) :
    ParsePostsResult :=
  let ownerName := detectOwnerName titleOwner items
  let st1 := items.foldl (parseFBPostItem uuid resolvePath zipf ownerName)
    { posts := [], logs := [], k := 0 }
  let owner2 := (st1.posts.find? (fun p => truthyS p.authorName)).bind (·.authorName)
  let st2 := photos.foldl (parseFBPhotoItem uuid resolvePath zipf owner2) st1
  let owner3 := (st2.posts.find? (fun p => truthyS p.authorName)).bind (·.authorName)
  let st3 := videos.foldl (parseFBVideoItem uuid resolvePath zipf owner3) st2
  { posts := List.insertionSort postTsLE st3.posts, errors := [], logs := st3.logs }

/-- The content-identity key of a message attachment: the first component
of `buildAttachmentKey`. -/
def attKey (hb : Blob → String) (a : Attachment) : String :=
  (buildAttachmentKey hb a).1

/-- The content-identity keys represented in an attachment list. -/
def attKeys (hb : Blob → String) (l : List Attachment) : List String :=
  l.map (attKey hb)

/-- Stated from the specification's words, for comparison with the source:
the claimed four-tier content-identity chain — (1) already-known content
hash, (2) digest of the binary payload, (3) source-URI string, (4)
metadata tuple of fileName+mimeType+size. `buildMediaKey` is compared
against this definition. -/
def specMediaKeyChain (hb : Blob → String) (m : PostMedia) : String :=
  if truthyS m.contentHash then "hash:" ++ m.contentHash.getD ""
  else
    match m.file with
    | some b =>
      if hb b ≠ "" then "hash:" ++ hb b
      else if truthyS m.sourceUri then "uri:" ++ m.sourceUri.getD ""
      else mediaMetaKey m
    | none =>
      if truthyS m.sourceUri then "uri:" ++ m.sourceUri.getD ""
      else mediaMetaKey m

/-- Stated from the amended claim, for comparison with the source: the
chain actually implemented for message attachments — (1) already-known
content hash, (2) digest of the binary payload, (3) a metadata pair of
mimeType+size, with no source-URI tier and no fileName component. -/
def specAttachmentKeyAmended (hb : Blob → String) (a : Attachment) : String :=
  if truthyS a.contentHash then "hash:" ++ a.contentHash.getD ""
  else
    match a.file with
    | some b =>
      if hb b ≠ "" then "hash:" ++ hb b
      else "meta:" ++ a.mimeType.getD "" ++ ":" ++
        (match a.size with | some n => toString n | none => "")
    | none =>
      "meta:" ++ a.mimeType.getD "" ++ ":" ++
        (match a.size with | some n => toString n | none => "")

/-- Erase the uuid-generated identifiers of a message (its own id and its
attachments' ids), keeping every field that parsing derives from the
archive contents. -/
def stripIds (m : Message) : Message :=
  { m with id := "", attachments := m.attachments.map (fun a => { a with id := "" }) }

/-- Erase the uuid-generated identifier of an attachment. -/
def stripAttId (a : Attachment) : Attachment := { a with id := "" }

/-- The externalId string of a message, `''` when absent. -/
def eidOf (m : Message) : String := m.externalId.getD ""

/-- The state of the `externalId` slot `e` of the store that makes a
re-import of a record with reactions `rs` a no-op: the lookup finds a
record whose stored reactions already compare equal to `rs` (or `rs` is
empty). -/
def ReadyFor (s : List Message) (e : String) (rs : List Reaction) : Prop :=
  ∃ r, findByExternalId s e = some r ∧
    (rs = [] ∨ reactionsEqual r.reactions rs = true)

theorem buildAttachmentKey_key_stable (hb : Blob → String) (a : Attachment) :
    attKey hb (buildAttachmentKey hb a).2 = attKey hb a := by
  unfold attKey buildAttachmentKey
  by_cases h : truthyS a.contentHash = true
  · simp [h]
  · simp only [h]
    cases hf : a.file with
    | none => simp [h, hf]
    | some b =>
      by_cases hh : hb b ≠ ""
      · simp [h, hf, hh, truthyS]
      · simp [h, hf, hh, attachmentMetaKey]

theorem buildAttachmentKey_file_id (hb : Blob → String) (a : Attachment) :
    (buildAttachmentKey hb a).2.file = a.file ∧ (buildAttachmentKey hb a).2.id = a.id := by
  unfold buildAttachmentKey
  by_cases h : truthyS a.contentHash = true
  · simp [h]
  · simp only [h]
    cases hf : a.file with
    | none => simp [hf]
    | some b =>
      by_cases hh : hb b ≠ ""
      · simp [hh, hf]
      · simp [hh, hf]

/-- C10: `getAttachmentType` is total with exactly the four media classes,
and every file name whose lowercased final dot-separated segment is in
none of the recognized extension lists — dotless names included, whose
final segment is the whole name — classifies as `document`. -/
theorem c10_getAttachmentType_total_default (s : String) :
    (getAttachmentType s = "image" ∨ getAttachmentType s = "video" ∨
      getAttachmentType s = "audio" ∨ getAttachmentType s = "document") ∧
    (¬ imageExts.contains (lastExt s) = true ∧ ¬ videoExts.contains (lastExt s) = true ∧
      ¬ audioExts.contains (lastExt s) = true → getAttachmentType s = "document") := by
  constructor
  · unfold getAttachmentType
    dsimp only
    split_ifs <;> tauto
  · rintro ⟨h1, h2, h3⟩
    unfold getAttachmentType
    dsimp only
    rw [if_neg (by simpa using h1), if_neg (by simpa using h2), if_neg (by simpa using h3)]

/-- C10 witness: a dotless name with an unrecognized segment falls through
to `document`. -/
theorem c10_witness :
    (¬ imageExts.contains (lastExt "README") = true ∧
      ¬ videoExts.contains (lastExt "README") = true ∧
      ¬ audioExts.contains (lastExt "README") = true) ∧
    getAttachmentType "README" = "document" :=
  ⟨⟨by decide, by decide, by decide⟩,
    (c10_getAttachmentType_total_default "README").2 ⟨by decide, by decide, by decide⟩⟩

/-- C2 counterexample: in the last-resort tier the message-attachment key
ignores the file name — two attachments that differ only in `fileName`
share one content-identity key, and `dedupeAttachments` collapses them,
contrary to the claimed fileName+mimeType+size tuple (and `Attachment`
carries no source URI, so the claimed source-URI tier cannot exist for
messages). -/
theorem c2_counterexample :
    attKey (fun _ => "")
        { id := "i1", atype := "document", fileName := "a.pdf", mimeType := some "application/pdf",
          size := some 10, file := none, contentHash := none } =
      attKey (fun _ => "")
        { id := "i2", atype := "document", fileName := "b.pdf", mimeType := some "application/pdf",
          size := some 10, file := none, contentHash := none } ∧
    ("a.pdf" : String) ≠ "b.pdf" ∧
    (dedupeAttachments (fun _ => "")
        [{ id := "i1", atype := "document", fileName := "a.pdf", mimeType := some "application/pdf",
           size := some 10, file := none, contentHash := none },
         { id := "i2", atype := "document", fileName := "b.pdf", mimeType := some "application/pdf",
           size := some 10, file := none, contentHash := none }]).map (·.fileName) = ["a.pdf"] := by
  refine ⟨rfl, by decide, by decide⟩

/-- C2 amended: post media follow the exact four-tier chain of the claim
(known hash, computed digest with caching, source URI, then the
fileName+mimeType+size tuple), while message attachments follow the same
chain with no source-URI tier and a metadata pair that omits the file
name. -/
theorem c2_key_chains :
    (∀ (hb : Blob → String) (m : PostMedia), (buildMediaKey hb m).1 = specMediaKeyChain hb m) ∧
    (∀ (hb : Blob → String) (a : Attachment), attKey hb a = specAttachmentKeyAmended hb a) := by
  constructor
  · intro hb m
    unfold buildMediaKey specMediaKeyChain
    by_cases h : truthyS m.contentHash = true
    · simp [h]
    · simp only [h]
      cases hf : m.file with
      | none => split_ifs <;> rfl
      | some b => simp only []; split_ifs <;> rfl
  · intro hb a
    unfold attKey buildAttachmentKey specAttachmentKeyAmended attachmentMetaKey
    by_cases h : truthyS a.contentHash = true
    · simp [h]
    · simp only [h]
      cases hf : a.file with
      | none => split_ifs <;> rfl
      | some b => simp only []; split_ifs <;> rfl

/-- C7: post enrichment backfills `text`, `activity` and `linkUrl` only
when the stored field is missing (absent or empty); a field already
present on the stored post is left unchanged regardless of the incoming
value, and the identity, timestamp, author, source and external id fields
are never touched. -/
theorem c7_importPosts_backfill_only_missing
    (blobs : List (String × Blob)) (existing post : PostRecord) :
    ((enrichPost blobs existing post).record.text =
      if truthyS existing.text then existing.text
      else if truthyS post.text then post.text else existing.text) ∧
    ((enrichPost blobs existing post).record.activity =
      if truthyS existing.activity then existing.activity
      else if truthyS post.activity then post.activity else existing.activity) ∧
    ((enrichPost blobs existing post).record.linkUrl =
      if truthyS existing.linkUrl then existing.linkUrl
      else if truthyS post.linkUrl then post.linkUrl else existing.linkUrl) ∧
    (enrichPost blobs existing post).record.id = existing.id ∧
    (enrichPost blobs existing post).record.timestamp = existing.timestamp ∧
    (enrichPost blobs existing post).record.authorName = existing.authorName ∧
    (enrichPost blobs existing post).record.source = existing.source ∧
    (enrichPost blobs existing post).record.externalId = existing.externalId := by
  obtain ⟨M, hM⟩ : ∃ M, (enrichPostMedia blobs existing post).record = { existing with media := M } := by
    unfold enrichPostMedia
    dsimp only
    split
    · exact ⟨existing.media, by simp⟩
    · split
      · exact ⟨_, rfl⟩
      · exact ⟨existing.media, by simp⟩
  simp only [enrichPost, hM]
  cases h1 : truthyS existing.text <;> cases h2 : truthyS post.text <;>
    cases h3 : truthyS existing.activity <;> cases h4 : truthyS post.activity <;>
      cases h5 : truthyS existing.linkUrl <;> cases h6 : truthyS post.linkUrl <;>
        simp [h1, h2, h3, h4, h5, h6]

theorem enrichAttachments_record_shape (hb : Blob → String) (blobs : List (String × Blob))
    (existing msg : Message) :
    ∃ A c, (enrichAttachments hb blobs existing msg).record =
      { existing with attachments := A, content := c } := by
  unfold enrichAttachments
  dsimp only
  split
  · exact ⟨existing.attachments, existing.content, rfl⟩
  · split
    · exact ⟨_, _, rfl⟩
    · exact ⟨_, existing.content, rfl⟩

/-- C6 amended: during enrichment the stored reactions are replaced by the
incoming ones exactly when the incoming record has at least one reaction
and the two lists differ under `reactionsEqual` (sort by emoji, then
pointwise comparison — which coincides with unordered-multiset equality
only when each side lists each emoji at most once); an incoming record
with no reactions never changes the stored reactions. -/
theorem c6_reactions_replacement (hb : Blob → String) (blobs : List (String × Blob))
    (existing msg : Message) :
    (enrichExisting hb blobs existing msg).record.reactions =
      if (!msg.reactions.isEmpty && !reactionsEqual existing.reactions msg.reactions) = true
      then msg.reactions else existing.reactions := by
  obtain ⟨A, c, hA⟩ := enrichAttachments_record_shape hb blobs existing msg
  simp only [enrichExisting, hA]
  cases h1 : msg.reactions.isEmpty <;>
    cases h2 : reactionsEqual existing.reactions msg.reactions <;> simp [h1, h2, hA]

/-- C6 counterexample: two reaction lists that are equal as unordered
multisets (a permutation of each other) but list the same emoji twice are
treated as different by the merge — the stored reactions are replaced and
the import counts an update, contradicting the claimed
multiset-equality comparison. -/
theorem c6_counterexample :
    let hb0 : Blob → String := fun _ => ""
    let m1 : Message :=
      { id := "id1", chatId := "c1", senderId := "s", content := "x", timestamp := 0,
        status := "read", attachments := [], quotedText := none, quotedSender := none,
        reactions := [⟨"a", 1⟩, ⟨"a", 2⟩], source := none, externalId := some "e" }
    let m2 : Message :=
      { id := "id2", chatId := "c1", senderId := "s", content := "x", timestamp := 0,
        status := "read", attachments := [], quotedText := none, quotedSender := none,
        reactions := [⟨"a", 2⟩, ⟨"a", 1⟩], source := none, externalId := some "e" }
    let s1 := importMessages hb0 [] [] [m1]
    let r := importMessages hb0 s1.store s1.blobs [m2]
    m1.reactions.Perm m2.reactions ∧
    s1.store.map (·.reactions) = [[⟨"a", 1⟩, ⟨"a", 2⟩]] ∧
    r.store.map (·.reactions) = [[⟨"a", 2⟩, ⟨"a", 1⟩]] ∧
    r.imported = 1 := by
  refine ⟨List.Perm.swap _ _ _, by decide, by decide, by decide⟩

/-- C4 counterexample: the WhatsApp parser emits messages in source row
order without a final sort — two well-formed rows whose dates parse out of
order yield a decreasing output sequence. -/
theorem c4_counterexample :
    let uuid : Nat → String := fun n => toString n
    let zipf : String → Option Blob := fun _ => none
    let pd : String → Option Int := fun s => if s = "b" then some 2 else some 1
    let row1 : WARow :=
      { is_from_me := "1", message_type := "", message_date_iso := "b", sent_date_iso := "",
        text := "hello", media_title := "", media_author := "", vcard_name := "",
        vcard_string := "", stanza_id := "", message_pk := "", media_local_path := "",
        quoted_text := "", quoted_message_pk := "", quoted_stanza_id := "", reaction_emojis := "" }
    let row2 : WARow :=
      { is_from_me := "0", message_type := "", message_date_iso := "a", sent_date_iso := "",
        text := "earlier", media_title := "", media_author := "", vcard_name := "",
        vcard_string := "", stanza_id := "", message_pk := "", media_local_path := "",
        quoted_text := "", quoted_message_pk := "", quoted_stanza_id := "", reaction_emojis := "" }
    let out := parseWhatsAppZip uuid zipf pd ExportOwner.luciana "c1" [row1, row2]
    out.messages.map (·.timestamp) = [2, 1] ∧
    out.errors = [] ∧
    ¬ List.Sorted tsLE out.messages := by
  refine ⟨by decide, by decide, by decide⟩

/-- C4 amended: the Google Chat, iMessage and Facebook-posts parsers sort
their output ascending by timestamp before returning (the WhatsApp parser
does not sort — it returns records in source row order). -/
theorem c4_sorted_parsers :
    (∀ (uuid : Nat → String) (zipf : String → Option Blob) (pd : String → Option Int)
        (sampleLogs : String → List String) (baseDir jsonFile chatId : String)
        (records : List GCRecord),
        List.Sorted tsLE
          (parseGoogleChatZip uuid zipf pd sampleLogs baseDir jsonFile chatId records).messages) ∧
    (∀ (uuid : Nat → String) (pd : String → Option Int) (chatId fileName : String)
        (records : List IRec),
        List.Sorted tsLE (parseIMessageJson uuid pd chatId fileName records).messages) ∧
    (∀ (uuid : Nat → String) (resolvePath : String → Option String)
        (zipf : String → Option Blob) (titleOwner : String → Option String)
        (items : List PostsJsonItem) (photos : List PhotoItem) (videos : List VideoItem),
        List.Sorted postTsLE
          (parseFacebookPostsZip uuid resolvePath zipf titleOwner items photos videos).posts) := by
  refine ⟨?_, ?_, ?_⟩
  · intro uuid zipf pd sampleLogs baseDir jsonFile chatId records
    simp only [parseGoogleChatZip]
    exact List.sorted_insertionSort tsLE _
  · intro uuid pd chatId fileName records
    simp only [parseIMessageJson]
    exact List.sorted_insertionSort tsLE _
  · intro uuid resolvePath zipf titleOwner items photos videos
    simp only [parseFacebookPostsZip]
    exact List.sorted_insertionSort postTsLE _

theorem parseGoogleChatRecord_messages (uuid : Nat → String) (zipf : String → Option Blob)
    (pd : String → Option Int) (sampleLogs : String → List String) (baseDir chatId : String)
    (st : GCState) (r : GCRecord) (m : Message) :
    m ∈ (parseGoogleChatRecord uuid zipf pd sampleLogs baseDir chatId st r).messages →
    m ∈ st.messages ∨ pd (r.created_date.getD "") = some m.timestamp := by
  intro h
  rw [parseGoogleChatRecord] at h
  cases hpd : pd (r.created_date.getD "") with
  | none => rw [hpd] at h; exact Or.inl h
  | some ts =>
    rw [hpd] at h
    dsimp only at h
    by_cases hc : strTrim (r.text.getD "") = "" ∧
        (gcAttachmentScan uuid zipf baseDir st.k r.attached_files).1.isEmpty = true
    · rw [if_pos hc] at h
      exact Or.inl h
    · rw [if_neg hc] at h
      rcases List.mem_append.1 h with h' | h'
      · exact Or.inl h'
      · right
        rw [List.mem_singleton] at h'
        subst h'
        simp [hpd]

theorem gc_fold_messages (uuid : Nat → String) (zipf : String → Option Blob)
    (pd : String → Option Int) (sampleLogs : String → List String) (baseDir chatId : String)
    (records : List GCRecord) :
    ∀ (st0 : GCState) (m : Message),
      m ∈ (records.foldl (parseGoogleChatRecord uuid zipf pd sampleLogs baseDir chatId) st0).messages →
      m ∈ st0.messages ∨ ∃ r ∈ records, pd (r.created_date.getD "") = some m.timestamp := by
  induction records with
  | nil => exact fun st0 m h => Or.inl h
  | cons r rest ih =>
    intro st0 m h
    rcases ih _ m h with h' | ⟨r', hr', hts⟩
    · rcases parseGoogleChatRecord_messages uuid zipf pd sampleLogs baseDir chatId st0 r m h' with
        h'' | hts
      · exact Or.inl h''
      · exact Or.inr ⟨r, List.mem_cons_self r rest, hts⟩
    · exact Or.inr ⟨r', List.mem_cons_of_mem r hr', hts⟩

theorem parseIMessageRecord_messages (uuid : Nat → String) (pd : String → Option Int)
    (chatId : String) (st : WAState) (r : IRec) (m : Message) :
    m ∈ (parseIMessageRecord uuid pd chatId st r).messages →
    m ∈ st.messages ∨ pd (r.date.getD "") = some m.timestamp := by
  intro h
  rw [parseIMessageRecord] at h
  by_cases ht : strTrim (r.text.getD "") = ""
  · rw [if_pos ht] at h
    exact Or.inl h
  · rw [if_neg ht] at h
    dsimp only at h
    cases hpd : pd (r.date.getD "") with
    | none => rw [hpd] at h; exact Or.inl h
    | some ts =>
      rw [hpd] at h
      dsimp only at h
      rcases List.mem_append.1 h with h' | h'
      · exact Or.inl h'
      · right
        rw [List.mem_singleton] at h'
        subst h'
        simp [hpd]

theorem imessage_fold_messages (uuid : Nat → String) (pd : String → Option Int)
    (chatId : String) (records : List IRec) :
    ∀ (st0 : WAState) (m : Message),
      m ∈ (records.foldl (parseIMessageRecord uuid pd chatId) st0).messages →
      m ∈ st0.messages ∨ ∃ r ∈ records, pd (r.date.getD "") = some m.timestamp := by
  induction records with
  | nil => exact fun st0 m h => Or.inl h
  | cons r rest ih =>
    intro st0 m h
    rcases ih _ m h with h' | ⟨r', hr', hts⟩
    · rcases parseIMessageRecord_messages uuid pd chatId st0 r m h' with h'' | hts
      · exact Or.inl h''
      · exact Or.inr ⟨r, List.mem_cons_self r rest, hts⟩
    · exact Or.inr ⟨r', List.mem_cons_of_mem r hr', hts⟩

theorem parseIMessageRecord_errors_mono (uuid : Nat → String) (pd : String → Option Int)
    (chatId : String) (st : WAState) (r : IRec) (e : String) :
    e ∈ st.errors → e ∈ (parseIMessageRecord uuid pd chatId st r).errors := by
  intro h
  by_cases ht : strTrim (r.text.getD "") = ""
  · simp only [parseIMessageRecord, if_pos ht]
    exact h
  · cases hpd : pd (r.date.getD "") with
    | none =>
      simp only [parseIMessageRecord, if_neg ht, hpd]
      exact List.mem_append_left _ h
    | some ts =>
      simp only [parseIMessageRecord, if_neg ht, hpd]
      exact h

theorem imessage_fold_errors_mono (uuid : Nat → String) (pd : String → Option Int)
    (chatId : String) (records : List IRec) :
    ∀ (st0 : WAState) (e : String),
      e ∈ st0.errors →
      e ∈ (records.foldl (parseIMessageRecord uuid pd chatId) st0).errors := by
  induction records with
  | nil => exact fun st0 e h => h
  | cons r rest ih =>
    intro st0 e h
    exact ih _ e (parseIMessageRecord_errors_mono uuid pd chatId st0 r e h)

theorem imessage_fold_reports_bad_date (uuid : Nat → String) (pd : String → Option Int)
    (chatId : String) (records : List IRec) :
    ∀ (st0 : WAState) (r : IRec),
      r ∈ records → strTrim (r.text.getD "") ≠ "" → pd (r.date.getD "") = none →
      ("Failed to parse date: " ++ r.date.getD "") ∈
        (records.foldl (parseIMessageRecord uuid pd chatId) st0).errors := by
  induction records with
  | nil => intro st0 r h; exact absurd h (List.not_mem_nil r)
  | cons r' rest ih =>
    intro st0 r hr htext hdate
    rcases List.mem_cons.1 hr with rfl | hr'
    · have hstep : ("Failed to parse date: " ++ r.date.getD "") ∈
          (parseIMessageRecord uuid pd chatId st0 r).errors := by
        unfold parseIMessageRecord
        rw [if_neg htext]
        dsimp only
        rw [hdate]
        exact List.mem_append_right _ (List.mem_singleton.2 rfl)
      exact imessage_fold_errors_mono uuid pd chatId rest _ _ hstep
    · exact ih _ r hr' htext hdate

/-- C3 counterexample: the Google Chat parser excludes a record whose date
string fails to parse but reports it only in the diagnostic log — the
`errors` list stays empty, contradicting the claimed reporting in
`errors`. -/
theorem c3_counterexample :
    let uuid : Nat → String := fun n => toString n
    let zipf : String → Option Blob := fun _ => none
    let pd : String → Option Int := fun _ => none
    let sampleLogs : String → List String := fun _ => []
    let bad : GCRecord :=
      { creator_name := some "x", created_date := some "garbage", text := some "hi",
        attached_files := [], message_id := none }
    let out := parseGoogleChatZip uuid zipf pd sampleLogs "" "f" "c1" [bad]
    out.messages = [] ∧
    out.errors = [] ∧
    out.logs = ["Parsed 1 messages from f", "Failed to parse date: garbage"] := by
  refine ⟨by decide, by decide, by decide⟩

/-- C3 amended: rows whose date fails to parse are excluded from every
parser's output and no message parser substitutes a fallback timestamp
(every emitted timestamp is the successful parse of some input record's
date); the iMessage parser reports each such row in `errors`, but the
Google Chat parser leaves `errors` empty always (date failures surface
only in its diagnostic log), and the Facebook posts parser emits a record
with timestamp 0 when the source item has no timestamp at all. -/
theorem c3_date_failure_handling :
    (∀ (uuid : Nat → String) (zipf : String → Option Blob) (pd : String → Option Int)
        (sampleLogs : String → List String) (baseDir jsonFile chatId : String)
        (records : List GCRecord),
        (parseGoogleChatZip uuid zipf pd sampleLogs baseDir jsonFile chatId records).errors = []) ∧
    (∀ (uuid : Nat → String) (zipf : String → Option Blob) (pd : String → Option Int)
        (sampleLogs : String → List String) (baseDir jsonFile chatId : String)
        (records : List GCRecord) (m : Message),
        m ∈ (parseGoogleChatZip uuid zipf pd sampleLogs baseDir jsonFile chatId records).messages →
        ∃ r ∈ records, pd (r.created_date.getD "") = some m.timestamp) ∧
    (∀ (uuid : Nat → String) (pd : String → Option Int) (chatId fileName : String)
        (records : List IRec) (r : IRec),
        r ∈ records → strTrim (r.text.getD "") ≠ "" → pd (r.date.getD "") = none →
        ("Failed to parse date: " ++ r.date.getD "") ∈
          (parseIMessageJson uuid pd chatId fileName records).errors) ∧
    (∀ (uuid : Nat → String) (pd : String → Option Int) (chatId fileName : String)
        (records : List IRec) (m : Message),
        m ∈ (parseIMessageJson uuid pd chatId fileName records).messages →
        ∃ r ∈ records, pd (r.date.getD "") = some m.timestamp) ∧
    ((parseFacebookPostsZip (fun n => toString n) (fun _ => none) (fun _ => none) (fun _ => none)
        [{ timestamp := none, title := some "activity", data := [], attachments := [] }] []
        []).posts.map (·.timestamp) = [0]) := by
  refine ⟨?_, ?_, ?_, ?_, by decide⟩
  · intro uuid zipf pd sampleLogs baseDir jsonFile chatId records
    simp only [parseGoogleChatZip]
  · intro uuid zipf pd sampleLogs baseDir jsonFile chatId records m hm
    simp only [parseGoogleChatZip] at hm
    rw [(List.perm_insertionSort tsLE _).mem_iff] at hm
    rcases gc_fold_messages uuid zipf pd sampleLogs baseDir chatId records _ m hm with h | h
    · exact absurd h (List.not_mem_nil m)
    · exact h
  · intro uuid pd chatId fileName records r hr htext hdate
    simp only [parseIMessageJson]
    exact imessage_fold_reports_bad_date uuid pd chatId records _ r hr htext hdate
  · intro uuid pd chatId fileName records m hm
    simp only [parseIMessageJson] at hm
    rw [(List.perm_insertionSort tsLE _).mem_iff] at hm
    rcases imessage_fold_messages uuid pd chatId records _ m hm with h | h
    · exact absurd h (List.not_mem_nil m)
    · exact h

/-- C3 witness: the amended behavior at concrete inputs — a bad-date row
reported in the iMessage `errors` list. -/
theorem c3_witness :
    let r0 : IRec :=
      { message_rowid := none, guid := none, date := some "bad", is_from_me := false,
        text := some "hello" }
    ("Failed to parse date: " ++ "bad") ∈
      (parseIMessageJson (fun n => toString n) (fun _ => none) "c1" "f" [r0]).errors := by
  intro r0
  exact c3_date_failure_handling.2.2.1 (fun n => toString n) (fun _ => none) "c1" "f" [r0] r0
    (List.mem_singleton.2 rfl) (by decide) rfl

theorem stripIds_externalId (m : Message) : (stripIds m).externalId = m.externalId := rfl

theorem stripIds_timestamp (m : Message) : (stripIds m).timestamp = m.timestamp := rfl

theorem map_externalId_of_map_stripIds {l1 l2 : List Message}
    (h : l1.map stripIds = l2.map stripIds) :
    l1.map (·.externalId) = l2.map (·.externalId) := by
  have h1 : l1.map (·.externalId) = (l1.map stripIds).map (·.externalId) := by
    rw [List.map_map]
    exact List.map_congr_left fun a _ => rfl
  have h2 : l2.map (·.externalId) = (l2.map stripIds).map (·.externalId) := by
    rw [List.map_map]
    exact List.map_congr_left fun a _ => rfl
  rw [h1, h2, h]

theorem map_eq_iff_forall₂ {α β : Type} (f : α → β) :
    ∀ (l1 l2 : List α), l1.map f = l2.map f ↔ List.Forall₂ (fun a b => f a = f b) l1 l2 := by
  intro l1
  induction l1 with
  | nil =>
    intro l2
    cases l2 with
    | nil => simp
    | cons b t => simp
  | cons a t ih =>
    intro l2
    cases l2 with
    | nil => simp
    | cons b t2 =>
      simp only [List.map_cons, List.cons.injEq, List.forall₂_cons]
      exact and_congr Iff.rfl (ih t2)

theorem orderedInsert_stripIds_congr (a b : Message) (hab : stripIds a = stripIds b) :
    ∀ (l1 l2 : List Message), List.Forall₂ (fun x y => stripIds x = stripIds y) l1 l2 →
    List.Forall₂ (fun x y => stripIds x = stripIds y)
      (List.orderedInsert tsLE a l1) (List.orderedInsert tsLE b l2) := by
  have hts : a.timestamp = b.timestamp := by
    have := congrArg Message.timestamp hab
    simpa [stripIds] using this
  intro l1 l2 h
  induction h with
  | nil => exact List.forall₂_cons.2 ⟨hab, List.Forall₂.nil⟩
  | @cons x y t1 t2 hxy ht ih =>
    have hxyts : x.timestamp = y.timestamp := by
      have := congrArg Message.timestamp hxy
      simpa [stripIds] using this
    simp only [List.orderedInsert]
    by_cases hc : tsLE a x
    · rw [if_pos hc, if_pos (by unfold tsLE at hc ⊢; rw [← hts, ← hxyts]; exact hc)]
      exact List.forall₂_cons.2 ⟨hab, List.forall₂_cons.2 ⟨hxy, ht⟩⟩
    · rw [if_neg hc, if_neg (by unfold tsLE at hc ⊢; rw [← hts, ← hxyts]; exact hc)]
      exact List.forall₂_cons.2 ⟨hxy, ih⟩

theorem insertionSort_stripIds_congr :
    ∀ (l1 l2 : List Message), List.Forall₂ (fun x y => stripIds x = stripIds y) l1 l2 →
    List.Forall₂ (fun x y => stripIds x = stripIds y)
      (List.insertionSort tsLE l1) (List.insertionSort tsLE l2) := by
  intro l1 l2 h
  induction h with
  | nil => exact List.Forall₂.nil
  | @cons x y t1 t2 hxy ht ih =>
    simp only [List.insertionSort]
    exact orderedInsert_stripIds_congr x y hxy _ _ ih

theorem waAttachmentScan_congr (u1 u2 : Nat → String) (zipf : String → Option Blob)
    (row : WARow) (mlp : String) (k1 k2 : Nat) :
    (waAttachmentScan u1 zipf row mlp k1).1.map stripAttId =
      (waAttachmentScan u2 zipf row mlp k2).1.map stripAttId ∧
    (waAttachmentScan u1 zipf row mlp k1).2.1 = (waAttachmentScan u2 zipf row mlp k2).2.1 ∧
    (waAttachmentScan u1 zipf row mlp k1).1.map (·.fileName) =
      (waAttachmentScan u2 zipf row mlp k2).1.map (·.fileName) ∧
    ((waAttachmentScan u1 zipf row mlp k1).1 = [] ↔
      (waAttachmentScan u2 zipf row mlp k2).1 = []) := by
  unfold waAttachmentScan
  by_cases hm : mlp ≠ ""
  · rw [if_pos hm, if_pos hm]
    cases zipf mlp with
    | none => exact ⟨rfl, rfl, rfl, Iff.rfl⟩
    | some blob => exact ⟨rfl, rfl, rfl, by simp⟩
  · rw [if_neg hm, if_neg hm]
    exact ⟨rfl, rfl, rfl, Iff.rfl⟩

theorem parseWhatsAppRow_congr (u1 u2 : Nat → String) (zipf : String → Option Blob)
    (pd : String → Option Int) (owner : ExportOwner) (chatId : String)
    (byPk bySt : List (String × String)) (st1 st2 : WAState) (row : WARow)
    (hm : st1.messages.map stripIds = st2.messages.map stripIds)
    (he : st1.errors = st2.errors) (hl : st1.logs = st2.logs) :
    (parseWhatsAppRow u1 zipf pd owner chatId byPk bySt st1 row).messages.map stripIds =
      (parseWhatsAppRow u2 zipf pd owner chatId byPk bySt st2 row).messages.map stripIds ∧
    (parseWhatsAppRow u1 zipf pd owner chatId byPk bySt st1 row).errors =
      (parseWhatsAppRow u2 zipf pd owner chatId byPk bySt st2 row).errors ∧
    (parseWhatsAppRow u1 zipf pd owner chatId byPk bySt st1 row).logs =
      (parseWhatsAppRow u2 zipf pd owner chatId byPk bySt st2 row).logs := by
  obtain ⟨ha1, ha2, ha3, ha4⟩ :=
    waAttachmentScan_congr u1 u2 zipf row (strTrim row.media_local_path) st1.k st2.k
  have ha4n : (waAttachmentScan u1 zipf row (strTrim row.media_local_path) st1.k).1 ≠ [] ↔
      (waAttachmentScan u2 zipf row (strTrim row.media_local_path) st2.k).1 ≠ [] :=
    not_congr ha4
  unfold parseWhatsAppRow
  by_cases h0 : jsOr (strTrim row.message_date_iso) (strTrim row.sent_date_iso) = ""
  · rw [if_pos h0, if_pos h0]
    exact ⟨hm, by dsimp only; rw [he], hl⟩
  · rw [if_neg h0, if_neg h0]
    cases hpd : pd (jsOr (strTrim row.message_date_iso) (strTrim row.sent_date_iso)) with
    | none =>
      dsimp only
      exact ⟨hm, by rw [he], hl⟩
    | some ts =>
      dsimp only
      by_cases hskip1 : SKIP_MESSAGE_TYPES.contains (strTrim row.message_type) = true ∧
          ¬ strTrim (buildContent row) ≠ "" ∧
          ¬ (waAttachmentScan u1 zipf row (strTrim row.media_local_path) st1.k).1 ≠ [] ∧
          ¬ parseReactions row ≠ []
      · have hskip1u : SKIP_MESSAGE_TYPES.contains (strTrim row.message_type) = true ∧
            ¬ strTrim (buildContent row) ≠ "" ∧
            ¬ (waAttachmentScan u2 zipf row (strTrim row.media_local_path) st2.k).1 ≠ [] ∧
            ¬ parseReactions row ≠ [] := by rw [ha4n] at hskip1; exact hskip1
        rw [if_pos hskip1, if_pos hskip1u]
        exact ⟨hm, he, by dsimp only; rw [hl, ha2]⟩
      · have hskip1u : ¬ (SKIP_MESSAGE_TYPES.contains (strTrim row.message_type) = true ∧
            ¬ strTrim (buildContent row) ≠ "" ∧
            ¬ (waAttachmentScan u2 zipf row (strTrim row.media_local_path) st2.k).1 ≠ [] ∧
            ¬ parseReactions row ≠ []) := by rw [ha4n] at hskip1; exact hskip1
        rw [if_neg hskip1, if_neg hskip1u]
        by_cases hskip2 : ¬ strTrim (buildContent row) ≠ "" ∧
            ¬ (waAttachmentScan u1 zipf row (strTrim row.media_local_path) st1.k).1 ≠ [] ∧
            ¬ parseReactions row ≠ []
        · have hskip2u : ¬ strTrim (buildContent row) ≠ "" ∧
              ¬ (waAttachmentScan u2 zipf row (strTrim row.media_local_path) st2.k).1 ≠ [] ∧
              ¬ parseReactions row ≠ [] := by rw [ha4n] at hskip2; exact hskip2
          rw [if_pos hskip2, if_pos hskip2u]
          exact ⟨hm, he, by dsimp only; rw [hl, ha2]⟩
        · have hskip2u : ¬ (¬ strTrim (buildContent row) ≠ "" ∧
              ¬ (waAttachmentScan u2 zipf row (strTrim row.media_local_path) st2.k).1 ≠ [] ∧
              ¬ parseReactions row ≠ []) := by rw [ha4n] at hskip2; exact hskip2
          rw [if_neg hskip2, if_neg hskip2u]
          refine ⟨?_, he, by dsimp only; rw [hl, ha2]⟩
          dsimp only
          rw [List.map_append, List.map_append, hm]
          congr 1
          simp only [List.map_cons, List.map_nil, List.cons.injEq, and_true]
          unfold stripIds
          simp only [Message.mk.injEq, and_true, true_and]
          refine ⟨?_, ?_⟩
          · exact congrArg (List.map stripAttId) rfl |>.trans ha1
          · rw [ha3]

theorem gcAttachmentStep_congr (u1 u2 : Nat → String) (zipf : String → Option Blob)
    (baseDir : String) (acc1 acc2 : List Attachment × List String × Nat) (fe : GCFile)
    (h1 : acc1.1.map stripAttId = acc2.1.map stripAttId)
    (h2 : acc1.1.map (·.fileName) = acc2.1.map (·.fileName))
    (h3 : acc1.2.1 = acc2.2.1) :
    (gcAttachmentStep u1 zipf baseDir acc1 fe).1.map stripAttId =
      (gcAttachmentStep u2 zipf baseDir acc2 fe).1.map stripAttId ∧
    (gcAttachmentStep u1 zipf baseDir acc1 fe).1.map (·.fileName) =
      (gcAttachmentStep u2 zipf baseDir acc2 fe).1.map (·.fileName) ∧
    (gcAttachmentStep u1 zipf baseDir acc1 fe).2.1 =
      (gcAttachmentStep u2 zipf baseDir acc2 fe).2.1 := by
  unfold gcAttachmentStep
  by_cases he : strTrim (fe.export_name.getD "") = ""
  · rw [if_pos he, if_pos he]
    exact ⟨h1, h2, h3⟩
  · rw [if_neg he, if_neg he]
    dsimp only
    cases zipf (if baseDir ≠ "" then baseDir ++ "/" ++ strTrim (fe.export_name.getD "")
        else strTrim (fe.export_name.getD "")) with
    | none => exact ⟨h1, h2, by dsimp only; rw [h3]⟩
    | some blob =>
      refine ⟨?_, ?_, h3⟩
      · dsimp only
        rw [List.map_append, List.map_append, h1]
        simp [stripAttId]
      · dsimp only
        rw [List.map_append, List.map_append, h2]
        simp

theorem gc_scan_fold_congr (u1 u2 : Nat → String) (zipf : String → Option Blob)
    (baseDir : String) (files : List GCFile) :
    ∀ (acc1 acc2 : List Attachment × List String × Nat),
      acc1.1.map stripAttId = acc2.1.map stripAttId →
      acc1.1.map (·.fileName) = acc2.1.map (·.fileName) →
      acc1.2.1 = acc2.2.1 →
      (files.foldl (gcAttachmentStep u1 zipf baseDir) acc1).1.map stripAttId =
        (files.foldl (gcAttachmentStep u2 zipf baseDir) acc2).1.map stripAttId ∧
      (files.foldl (gcAttachmentStep u1 zipf baseDir) acc1).1.map (·.fileName) =
        (files.foldl (gcAttachmentStep u2 zipf baseDir) acc2).1.map (·.fileName) ∧
      (files.foldl (gcAttachmentStep u1 zipf baseDir) acc1).2.1 =
        (files.foldl (gcAttachmentStep u2 zipf baseDir) acc2).2.1 := by
  induction files with
  | nil => exact fun acc1 acc2 h1 h2 h3 => ⟨h1, h2, h3⟩
  | cons fe rest ih =>
    intro acc1 acc2 h1 h2 h3
    obtain ⟨g1, g2, g3⟩ := gcAttachmentStep_congr u1 u2 zipf baseDir acc1 acc2 fe h1 h2 h3
    exact ih _ _ g1 g2 g3

theorem gcAttachmentScan_congr (u1 u2 : Nat → String) (zipf : String → Option Blob)
    (baseDir : String) (k1 k2 : Nat) (files : List GCFile) :
    (gcAttachmentScan u1 zipf baseDir k1 files).1.map stripAttId =
      (gcAttachmentScan u2 zipf baseDir k2 files).1.map stripAttId ∧
    (gcAttachmentScan u1 zipf baseDir k1 files).1.map (·.fileName) =
      (gcAttachmentScan u2 zipf baseDir k2 files).1.map (·.fileName) ∧
    (gcAttachmentScan u1 zipf baseDir k1 files).2.1 =
      (gcAttachmentScan u2 zipf baseDir k2 files).2.1 := by
  unfold gcAttachmentScan
  exact gc_scan_fold_congr u1 u2 zipf baseDir files ([], [], k1) ([], [], k2) rfl rfl rfl

theorem map_isEmpty_eq {l1 l2 : List Attachment}
    (h : l1.map stripAttId = l2.map stripAttId) : l1.isEmpty = l2.isEmpty := by
  cases l1 with
  | nil => cases l2 with
    | nil => rfl
    | cons b t => simp at h
  | cons a t => cases l2 with
    | nil => simp at h
    | cons b t2 => rfl

theorem parseGoogleChatRecord_congr (u1 u2 : Nat → String) (zipf : String → Option Blob)
    (pd : String → Option Int) (sampleLogs : String → List String) (baseDir chatId : String)
    (st1 st2 : GCState) (r : GCRecord)
    (hm : st1.messages.map stripIds = st2.messages.map stripIds)
    (hl : st1.logs = st2.logs) (hf : st1.failedDates = st2.failedDates)
    (hs : st1.loggedSample = st2.loggedSample) :
    (parseGoogleChatRecord u1 zipf pd sampleLogs baseDir chatId st1 r).messages.map stripIds =
      (parseGoogleChatRecord u2 zipf pd sampleLogs baseDir chatId st2 r).messages.map stripIds ∧
    (parseGoogleChatRecord u1 zipf pd sampleLogs baseDir chatId st1 r).logs =
      (parseGoogleChatRecord u2 zipf pd sampleLogs baseDir chatId st2 r).logs ∧
    (parseGoogleChatRecord u1 zipf pd sampleLogs baseDir chatId st1 r).failedDates =
      (parseGoogleChatRecord u2 zipf pd sampleLogs baseDir chatId st2 r).failedDates ∧
    (parseGoogleChatRecord u1 zipf pd sampleLogs baseDir chatId st1 r).loggedSample =
      (parseGoogleChatRecord u2 zipf pd sampleLogs baseDir chatId st2 r).loggedSample := by
  obtain ⟨g1, g2, g3⟩ :=
    gcAttachmentScan_congr u1 u2 zipf baseDir st1.k st2.k r.attached_files
  have hEmp := map_isEmpty_eq g1
  cases hpd : pd (r.created_date.getD "") with
  | none =>
    simp only [parseGoogleChatRecord, hpd]
    rw [hl, hf, hs]
    exact ⟨hm, rfl, rfl, rfl⟩
  | some ts =>
    simp only [parseGoogleChatRecord, hpd]
    by_cases hc : strTrim (r.text.getD "") = "" ∧
        (gcAttachmentScan u1 zipf baseDir st1.k r.attached_files).1.isEmpty = true
    · have hcu : strTrim (r.text.getD "") = "" ∧
          (gcAttachmentScan u2 zipf baseDir st2.k r.attached_files).1.isEmpty = true := by
        rw [← hEmp]; exact hc
      rw [if_pos hc, if_pos hcu]
      exact ⟨hm, by dsimp only; rw [hl, g3], hf, hs⟩
    · have hcu : ¬ (strTrim (r.text.getD "") = "" ∧
          (gcAttachmentScan u2 zipf baseDir st2.k r.attached_files).1.isEmpty = true) := by
        rw [← hEmp]; exact hc
      rw [if_neg hc, if_neg hcu]
      refine ⟨?_, by dsimp only; rw [hl, g3], hf, hs⟩
      dsimp only
      rw [List.map_append, List.map_append, hm]
      congr 1
      simp only [List.map_cons, List.map_nil, List.cons.injEq, and_true]
      unfold stripIds
      simp only [Message.mk.injEq, and_true, true_and]
      constructor
      · exact g1
      · rw [g2]

theorem wa_fold_congr (u1 u2 : Nat → String) (zipf : String → Option Blob)
    (pd : String → Option Int) (owner : ExportOwner) (chatId : String)
    (byPk bySt : List (String × String)) (rows : List WARow) :
    ∀ (st1 st2 : WAState),
      st1.messages.map stripIds = st2.messages.map stripIds →
      st1.errors = st2.errors → st1.logs = st2.logs →
      (rows.foldl (parseWhatsAppRow u1 zipf pd owner chatId byPk bySt) st1).messages.map stripIds =
        (rows.foldl (parseWhatsAppRow u2 zipf pd owner chatId byPk bySt) st2).messages.map stripIds ∧
      (rows.foldl (parseWhatsAppRow u1 zipf pd owner chatId byPk bySt) st1).errors =
        (rows.foldl (parseWhatsAppRow u2 zipf pd owner chatId byPk bySt) st2).errors ∧
      (rows.foldl (parseWhatsAppRow u1 zipf pd owner chatId byPk bySt) st1).logs =
        (rows.foldl (parseWhatsAppRow u2 zipf pd owner chatId byPk bySt) st2).logs := by
  induction rows with
  | nil => exact fun st1 st2 hm he hl => ⟨hm, he, hl⟩
  | cons row rest ih =>
    intro st1 st2 hm he hl
    obtain ⟨g1, g2, g3⟩ :=
      parseWhatsAppRow_congr u1 u2 zipf pd owner chatId byPk bySt st1 st2 row hm he hl
    exact ih _ _ g1 g2 g3

theorem gc_fold_congr (u1 u2 : Nat → String) (zipf : String → Option Blob)
    (pd : String → Option Int) (sampleLogs : String → List String) (baseDir chatId : String)
    (records : List GCRecord) :
    ∀ (st1 st2 : GCState),
      st1.messages.map stripIds = st2.messages.map stripIds →
      st1.logs = st2.logs → st1.failedDates = st2.failedDates →
      st1.loggedSample = st2.loggedSample →
      (records.foldl (parseGoogleChatRecord u1 zipf pd sampleLogs baseDir chatId) st1).messages.map
          stripIds =
        (records.foldl (parseGoogleChatRecord u2 zipf pd sampleLogs baseDir chatId)
            st2).messages.map stripIds ∧
      (records.foldl (parseGoogleChatRecord u1 zipf pd sampleLogs baseDir chatId) st1).logs =
        (records.foldl (parseGoogleChatRecord u2 zipf pd sampleLogs baseDir chatId) st2).logs ∧
      (records.foldl (parseGoogleChatRecord u1 zipf pd sampleLogs baseDir chatId) st1).failedDates =
        (records.foldl (parseGoogleChatRecord u2 zipf pd sampleLogs baseDir chatId)
            st2).failedDates ∧
      (records.foldl (parseGoogleChatRecord u1 zipf pd sampleLogs baseDir chatId)
            st1).loggedSample =
        (records.foldl (parseGoogleChatRecord u2 zipf pd sampleLogs baseDir chatId)
            st2).loggedSample := by
  induction records with
  | nil => exact fun st1 st2 hm hl hf hs => ⟨hm, hl, hf, hs⟩
  | cons r rest ih =>
    intro st1 st2 hm hl hf hs
    obtain ⟨g1, g2, g3, g4⟩ :=
      parseGoogleChatRecord_congr u1 u2 zipf pd sampleLogs baseDir chatId st1 st2 r hm hl hf hs
    exact ih _ _ g1 g2 g3 g4

/-- C8: external-identity derivation is deterministic: the `externalId`
sequence a parse produces is a pure function of the archive contents —
it does not depend on the uuid supply (the only nondeterministic input),
for both the WhatsApp parser and the Google Chat parser; re-parsing the
same input therefore yields identical `externalId` values for
corresponding records. -/
theorem c8_externalId_deterministic :
    (∀ (u1 u2 : Nat → String) (zipf : String → Option Blob) (pd : String → Option Int)
        (owner : ExportOwner) (chatId : String) (rows : List WARow),
        (parseWhatsAppZip u1 zipf pd owner chatId rows).messages.map (·.externalId) =
          (parseWhatsAppZip u2 zipf pd owner chatId rows).messages.map (·.externalId)) ∧
    (∀ (u1 u2 : Nat → String) (zipf : String → Option Blob) (pd : String → Option Int)
        (sampleLogs : String → List String) (baseDir jsonFile chatId : String)
        (records : List GCRecord),
        (parseGoogleChatZip u1 zipf pd sampleLogs baseDir jsonFile chatId records).messages.map
            (·.externalId) =
          (parseGoogleChatZip u2 zipf pd sampleLogs baseDir jsonFile chatId
              records).messages.map (·.externalId)) := by
  constructor
  · intro u1 u2 zipf pd owner chatId rows
    apply map_externalId_of_map_stripIds
    simp only [parseWhatsAppZip]
    exact (wa_fold_congr u1 u2 zipf pd owner chatId (waSenderMaps owner rows).1
      (waSenderMaps owner rows).2 rows _ _ rfl rfl rfl).1
  · intro u1 u2 zipf pd sampleLogs baseDir jsonFile chatId records
    apply map_externalId_of_map_stripIds
    simp only [parseGoogleChatZip]
    have h := (gc_fold_congr u1 u2 zipf pd sampleLogs baseDir chatId records
      { messages := [],
        logs := ["Parsed " ++ toString records.length ++ " messages from " ++ jsonFile],
        failedDates := 0, loggedSample := false, k := 0 }
      { messages := [],
        logs := ["Parsed " ++ toString records.length ++ " messages from " ++ jsonFile],
        failedDates := 0, loggedSample := false, k := 0 } rfl rfl rfl rfl).1
    rw [(map_eq_iff_forall₂ stripIds _ _)] at h ⊢
    exact insertionSort_stripIds_congr _ _ h

theorem alistHas_iff_mem_keys {α : Type} (m : List (String × α)) (k : String) :
    alistHas m k = true ↔ k ∈ m.map (·.1) := by
  induction m with
  | nil => simp [alistHas, alistGet]
  | cons p rest ih =>
    by_cases h : p.1 = k
    · simp [alistHas, alistGet, h]
    · simp only [alistHas, alistGet, if_neg h, List.map_cons, List.mem_cons]
      rw [← alistHas]
      rw [ih]
      constructor
      · exact fun hh => Or.inr hh
      · rintro (hh | hh)
        · exact absurd hh.symm h
        · exact hh

theorem alistGet_set_self {α : Type} (m : List (String × α)) (k : String) (v : α) :
    alistGet (alistSet m k v) k = some v := by
  induction m with
  | nil => simp [alistSet, alistGet]
  | cons p rest ih =>
    by_cases h : p.1 = k
    · simp [alistSet, alistGet, h]
    · simp [alistSet, alistGet, h, ih]

theorem alistGet_set_other {α : Type} (m : List (String × α)) (k k' : String) (v : α)
    (h : k' ≠ k) : alistGet (alistSet m k v) k' = alistGet m k' := by
  have hk : ¬ k = k' := fun hh => h hh.symm
  induction m with
  | nil => simp [alistSet, alistGet, hk]
  | cons p rest ih =>
    by_cases hp : p.1 = k
    · rw [alistSet, if_pos hp]
      rw [alistGet, alistGet]
      have hp' : ¬ p.1 = k' := by rw [hp]; exact hk
      rw [if_neg hk, if_neg hp']
    · rw [alistSet, if_neg hp]
      by_cases hp' : p.1 = k'
      · rw [alistGet, alistGet, if_pos hp', if_pos hp']
      · rw [alistGet, alistGet, if_neg hp', if_neg hp']
        exact ih

theorem enrichExisting_id_eid (hb : Blob → String) (blobs : List (String × Blob))
    (existing msg : Message) :
    (enrichExisting hb blobs existing msg).record.id = existing.id ∧
    (enrichExisting hb blobs existing msg).record.externalId = existing.externalId := by
  obtain ⟨A, c, hA⟩ := enrichAttachments_record_shape hb blobs existing msg
  unfold enrichExisting
  dsimp only
  split
  · simp [hA]
  · simp [hA]

theorem enrichExisting_reactions_eq (hb : Blob → String) (blobs : List (String × Blob))
    (existing msg : Message) :
    (enrichExisting hb blobs existing msg).record.reactions =
      if (!msg.reactions.isEmpty && !reactionsEqual existing.reactions msg.reactions) = true
      then msg.reactions else existing.reactions := by
  obtain ⟨A, c, hA⟩ := enrichAttachments_record_shape hb blobs existing msg
  simp only [enrichExisting, hA]
  cases h1 : msg.reactions.isEmpty <;>
    cases h2 : reactionsEqual existing.reactions msg.reactions <;> simp [h1, h2, hA]

theorem zip_self_all_eq (l : List Reaction) :
    (l.zip l).all (fun p => decide (p.1.emoji = p.2.emoji) && decide (p.1.count = p.2.count)) =
      true := by
  induction l with
  | nil => rfl
  | cons a t ih => simp [ih]

theorem reactionsEqual_refl (l : List Reaction) : reactionsEqual l l = true := by
  unfold reactionsEqual
  dsimp only
  rw [Bool.and_eq_true]
  exact ⟨by simp, zip_self_all_eq (normalizeReactions l)⟩

theorem putById_append (s : List Message) (x : Message)
    (h : ∀ r ∈ s, r.id ≠ x.id) : putById s x = s ++ [x] := by
  have hc : s.any (fun r => decide (r.id = x.id)) = false := by
    rw [List.any_eq_false]
    intro r hr
    simp [h r hr]
  unfold putById
  rw [hc]
  simp

theorem putById_replace (s : List Message) (x ex : Message)
    (hex : ex ∈ s) (hid : ex.id = x.id) :
    putById s x = s.map (fun r => if r.id = x.id then x else r) := by
  unfold putById
  rw [if_pos]
  rw [List.any_eq_true]
  exact ⟨ex, hex, by simp [hid]⟩

theorem putById_ids (s : List Message) (x : Message) :
    (putById s x).map (·.id) = s.map (·.id) ∨
    (putById s x).map (·.id) = s.map (·.id) ++ [x.id] := by
  unfold putById
  split
  · left
    rw [List.map_map]
    apply List.map_congr_left
    intro r _
    by_cases h : r.id = x.id
    · simp [h]
    · simp [h]
  · right
    simp

theorem findByExternalId_append_some (s t : List Message) (e : String) (r : Message)
    (h : findByExternalId s e = some r) :
    findByExternalId (s ++ t) e = some r := by
  unfold findByExternalId at h ⊢
  induction s with
  | nil => simp [List.find?] at h
  | cons a s' ih =>
    rw [List.cons_append, List.find?]
    rw [List.find?] at h
    cases hd : decide (a.externalId = some e) with
    | true => rw [hd] at h; simpa [hd] using h
    | false => rw [hd] at h; simpa [hd] using ih h

theorem findByExternalId_append_single (s : List Message) (x : Message) (e : String)
    (hn : findByExternalId s e = none) (hx : x.externalId = some e) :
    findByExternalId (s ++ [x]) e = some x := by
  unfold findByExternalId at hn ⊢
  induction s with
  | nil => simp [List.find?, hx]
  | cons a s' ih =>
    rw [List.cons_append, List.find?]
    rw [List.find?] at hn
    cases hd : decide (a.externalId = some e) with
    | true => rw [hd] at hn; simp at hn
    | false => rw [hd] at hn; simpa [hd] using ih hn

theorem findByExternalId_mem (s : List Message) (e : String) (r : Message)
    (h : findByExternalId s e = some r) : r ∈ s ∧ r.externalId = some e := by
  unfold findByExternalId at h
  constructor
  · exact List.mem_of_find?_eq_some h
  · have := List.find?_some h
    simpa using this

theorem map_subst_id_of_absent (s : List Message) (x : Message)
    (h : ∀ r ∈ s, r.id ≠ x.id) :
    s.map (fun r => if r.id = x.id then x else r) = s := by
  have : s.map (fun r => if r.id = x.id then x else r) = s.map id := by
    apply List.map_congr_left
    intro r hr
    simp [if_neg (h r hr)]
  rw [this, List.map_id]

theorem find_subst_other (s : List Message) (ex x : Message) (e : String)
    (hnd : (s.map (·.id)).Nodup) (hex : ex ∈ s) (hid : x.id = ex.id)
    (hxe : x.externalId ≠ some e) (hexe : ex.externalId ≠ some e) :
    findByExternalId (s.map (fun r => if r.id = x.id then x else r)) e =
      findByExternalId s e := by
  induction s with
  | nil => rfl
  | cons a t ih =>
    rw [List.map_cons] at hnd ⊢
    rw [List.nodup_cons] at hnd
    rcases List.mem_cons.1 hex with rfl | hext
    · rw [if_pos (by rw [hid])]
      unfold findByExternalId
      rw [List.find?, List.find?]
      have h1 : decide (x.externalId = some e) = false := by simpa using hxe
      have h2 : decide (ex.externalId = some e) = false := by simpa using hexe
      rw [h1, h2]
      have habs : ∀ r ∈ t, r.id ≠ x.id := by
        intro r hr hcon
        exact hnd.1 (by rw [← hid, ← hcon]; exact List.mem_map_of_mem (·.id) hr)
      rw [map_subst_id_of_absent t x habs]
    · have haid : ¬ a.id = x.id := by
        intro hcon
        exact hnd.1 (by rw [hcon, hid]; exact List.mem_map_of_mem (·.id) hext)
      rw [if_neg haid]
      unfold findByExternalId
      rw [List.find?, List.find?]
      cases hd : decide (a.externalId = some e) with
      | true => rfl
      | false => exact ih hnd.2 hext

theorem find_subst_self (s : List Message) (ex x : Message) (e : String)
    (hnd : (s.map (·.id)).Nodup) (hfind : findByExternalId s e = some ex)
    (hid : x.id = ex.id) (hxe : x.externalId = some e) :
    findByExternalId (s.map (fun r => if r.id = x.id then x else r)) e = some x := by
  induction s with
  | nil => simp [findByExternalId, List.find?] at hfind
  | cons a t ih =>
    rw [List.map_cons] at hnd ⊢
    rw [List.nodup_cons] at hnd
    unfold findByExternalId at hfind ⊢
    rw [List.find?] at hfind
    cases hd : decide (a.externalId = some e) with
    | true =>
      rw [hd] at hfind
      have hax : a = ex := by simpa using hfind
      subst hax
      rw [if_pos (by rw [hid]), List.find?]
      rw [show decide (x.externalId = some e) = true by simpa using hxe]
    | false =>
      rw [hd] at hfind
      have hext : ex ∈ t := (findByExternalId_mem t e ex hfind).1
      have haid : ¬ a.id = x.id := by
        intro hcon
        exact hnd.1 (by rw [hcon, hid]; exact List.mem_map_of_mem (·.id) hext)
      rw [if_neg haid, List.find?, hd]
      exact ih hnd.2 hfind

theorem enrichAttachmentStep_fold_id (hb : Blob → String) (l : List Attachment)
    (hfile : ∀ a ∈ l, a.file = none) :
    ∀ (s : AttLoopState), l.foldl (enrichAttachmentStep hb) s = s := by
  induction l with
  | nil => exact fun s => rfl
  | cons a t ih =>
    intro s
    rw [List.foldl_cons]
    have hstep : enrichAttachmentStep hb s a = s := by
      unfold enrichAttachmentStep
      rw [hfile a (List.mem_cons_self a t)]
    rw [hstep]
    exact ih (fun a' ha' => hfile a' (List.mem_cons_of_mem a ha')) s

theorem enrichAttachments_noop (hb : Blob → String) (blobs : List (String × Blob))
    (existing msg : Message) (hfile : ∀ a ∈ msg.attachments, a.file = none) :
    (enrichAttachments hb blobs existing msg).wasUpdated = false ∧
    (enrichAttachments hb blobs existing msg).blobs = blobs := by
  unfold enrichAttachments
  dsimp only
  split
  · exact ⟨rfl, rfl⟩
  · rw [enrichAttachmentStep_fold_id hb msg.attachments hfile]
    dsimp only
    exact ⟨rfl, rfl⟩

theorem enrichExisting_noop (hb : Blob → String) (blobs : List (String × Blob))
    (existing msg : Message) (hfile : ∀ a ∈ msg.attachments, a.file = none)
    (hre : msg.reactions = [] ∨ reactionsEqual existing.reactions msg.reactions = true) :
    (enrichExisting hb blobs existing msg).wasUpdated = false ∧
    (enrichExisting hb blobs existing msg).blobs = blobs := by
  obtain ⟨A, c, hA⟩ := enrichAttachments_record_shape hb blobs existing msg
  obtain ⟨hupd, hblobs⟩ := enrichAttachments_noop hb blobs existing msg hfile
  unfold enrichExisting
  dsimp only
  have hcond : (!msg.reactions.isEmpty &&
      !reactionsEqual (enrichAttachments hb blobs existing msg).record.reactions
        msg.reactions) = false := by
    rcases hre with hre | hre
    · simp [hre]
    · rw [hA]
      dsimp only
      simp [hre]
  rw [hcond]
  simp only [Bool.false_eq_true, if_false]
  exact ⟨hupd, hblobs⟩

theorem importStep_noop (hb : Blob → String) (st : ImportState) (msg : Message)
    (ht : truthyS msg.externalId = true) (r : Message)
    (hfind : findByExternalId st.store (msg.externalId.getD "") = some r)
    (hfile : ∀ a ∈ msg.attachments, a.file = none)
    (hre : msg.reactions = [] ∨ reactionsEqual r.reactions msg.reactions = true) :
    importStep hb st msg = st := by
  obtain ⟨hupd, hblobs⟩ := enrichExisting_noop hb st.blobs r msg hfile hre
  unfold importStep
  rw [if_pos ht, hfind]
  dsimp only
  rw [hupd]
  simp only [Bool.false_eq_true, if_false]
  rw [hblobs]

theorem truthyS_eq_some (o : Option String) (h : truthyS o = true) : o = some (o.getD "") := by
  cases o with
  | none => simp [truthyS] at h
  | some s => rfl

theorem import_fold_noop (hb : Blob → String) (batch : List Message) :
    ∀ (st : ImportState),
      (∀ m ∈ batch, truthyS m.externalId = true ∧ (∀ a ∈ m.attachments, a.file = none) ∧
        ReadyFor st.store (m.externalId.getD "") m.reactions) →
      batch.foldl (importStep hb) st = st := by
  induction batch with
  | nil => exact fun st _ => rfl
  | cons m t ih =>
    intro st h
    obtain ⟨ht, hf, r, hfind, hre⟩ := h m (List.mem_cons_self m t)
    rw [List.foldl_cons, importStep_noop hb st m ht r hfind hf hre]
    exact ih st (fun m' hm' => h m' (List.mem_cons_of_mem m hm'))

theorem enrichExisting_wasUpdated_false (hb : Blob → String) (blobs : List (String × Blob))
    (existing msg : Message)
    (h : (enrichExisting hb blobs existing msg).wasUpdated = false) :
    msg.reactions = [] ∨ reactionsEqual existing.reactions msg.reactions = true := by
  obtain ⟨A, c, hA⟩ := enrichAttachments_record_shape hb blobs existing msg
  unfold enrichExisting at h
  dsimp only at h
  by_cases hc : (!msg.reactions.isEmpty &&
      !reactionsEqual (enrichAttachments hb blobs existing msg).record.reactions
        msg.reactions) = true
  · rw [if_pos hc] at h
    simp at h
  · rw [hA] at hc
    dsimp only at hc
    cases hre : msg.reactions.isEmpty with
    | true =>
      left
      exact List.isEmpty_iff.1 hre
    | false =>
      cases hq : reactionsEqual existing.reactions msg.reactions with
      | true => right; rfl
      | false => exact absurd (by rw [hre, hq]; rfl) hc

theorem importStep_establishes_ready (hb : Blob → String) (st : ImportState) (msg : Message)
    (ht : truthyS msg.externalId = true)
    (hnd : (st.store.map (·.id)).Nodup)
    (hfresh : ∀ r ∈ st.store, r.id ≠ msg.id) :
    ReadyFor (importStep hb st msg).store (msg.externalId.getD "") msg.reactions := by
  have heid : msg.externalId = some (msg.externalId.getD "") := truthyS_eq_some _ ht
  unfold importStep
  rw [if_pos ht]
  cases hfind : findByExternalId st.store (msg.externalId.getD "") with
  | none =>
    dsimp only
    rw [putById_append st.store
      { msg with attachments := msg.attachments.map (fun a => { a with file := none }) }
      (fun r hr => hfresh r hr)]
    refine ⟨{ msg with attachments := msg.attachments.map (fun a => { a with file := none }) },
      findByExternalId_append_single _ _ _ hfind heid, ?_⟩
    right
    exact reactionsEqual_refl msg.reactions
  | some ex =>
    dsimp only
    obtain ⟨hexmem, hexe⟩ := findByExternalId_mem _ _ _ hfind
    obtain ⟨hrid, hreid⟩ := enrichExisting_id_eid hb st.blobs ex msg
    cases hupd : (enrichExisting hb st.blobs ex msg).wasUpdated with
    | false =>
      simp only [Bool.false_eq_true, if_false]
      exact ⟨ex, hfind, enrichExisting_wasUpdated_false hb st.blobs ex msg hupd⟩
    | true =>
      simp only [if_true]
      rw [putById_replace _ _ ex hexmem (by rw [hrid])]
      refine ⟨(enrichExisting hb st.blobs ex msg).record,
        find_subst_self st.store ex _ _ hnd hfind hrid (by rw [hreid]; exact hexe), ?_⟩
      rw [enrichExisting_reactions_eq]
      cases hre : msg.reactions.isEmpty with
      | true =>
        left
        exact List.isEmpty_iff.1 hre
      | false =>
        right
        cases hq : reactionsEqual ex.reactions msg.reactions with
        | true => simpa using hq
        | false => simpa using reactionsEqual_refl msg.reactions

theorem importStep_preserves_ready (hb : Blob → String) (st : ImportState) (msg : Message)
    (e : String) (rs : List Reaction)
    (ht : truthyS msg.externalId = true)
    (hne : msg.externalId.getD "" ≠ e)
    (hnd : (st.store.map (·.id)).Nodup)
    (hfresh : ∀ r ∈ st.store, r.id ≠ msg.id)
    (hready : ReadyFor st.store e rs) :
    ReadyFor (importStep hb st msg).store e rs := by
  obtain ⟨r, hfindr, hrs⟩ := hready
  have heid : msg.externalId = some (msg.externalId.getD "") := truthyS_eq_some _ ht
  unfold importStep
  rw [if_pos ht]
  cases hfind : findByExternalId st.store (msg.externalId.getD "") with
  | none =>
    dsimp only
    rw [putById_append st.store
      { msg with attachments := msg.attachments.map (fun a => { a with file := none }) }
      (fun r' hr' => hfresh r' hr')]
    exact ⟨r, findByExternalId_append_some _ _ _ _ hfindr, hrs⟩
  | some ex =>
    dsimp only
    obtain ⟨hexmem, hexe⟩ := findByExternalId_mem _ _ _ hfind
    obtain ⟨hrid, hreid⟩ := enrichExisting_id_eid hb st.blobs ex msg
    cases hupd : (enrichExisting hb st.blobs ex msg).wasUpdated with
    | false =>
      simp only [Bool.false_eq_true, if_false]
      exact ⟨r, hfindr, hrs⟩
    | true =>
      simp only [if_true]
      rw [putById_replace _ _ ex hexmem (by rw [hrid])]
      refine ⟨r, ?_, hrs⟩
      rw [find_subst_other st.store ex _ e hnd hexmem hrid ?_ ?_]
      · exact hfindr
      · rw [hreid, hexe]
        intro hcon
        exact hne (by injection hcon)
      · rw [hexe]
        intro hcon
        exact hne (by injection hcon)

theorem map_id_subst (s : List Message) (x : Message) :
    (s.map (fun r => if r.id = x.id then x else r)).map (·.id) = s.map (·.id) := by
  rw [List.map_map]
  apply List.map_congr_left
  intro r _
  by_cases h : r.id = x.id
  · simp [h]
  · simp [h]

theorem importStep_ids (hb : Blob → String) (st : ImportState) (msg : Message)
    (ht : truthyS msg.externalId = true)
    (hfresh : ∀ r ∈ st.store, r.id ≠ msg.id) :
    (importStep hb st msg).store.map (·.id) = st.store.map (·.id) ∨
    (importStep hb st msg).store.map (·.id) = st.store.map (·.id) ++ [msg.id] := by
  unfold importStep
  rw [if_pos ht]
  cases hfind : findByExternalId st.store (msg.externalId.getD "") with
  | none =>
    dsimp only
    rw [putById_append st.store
      { msg with attachments := msg.attachments.map (fun a => { a with file := none }) }
      (fun r hr => hfresh r hr)]
    right
    simp
  | some ex =>
    dsimp only
    obtain ⟨hexmem, _⟩ := findByExternalId_mem _ _ _ hfind
    obtain ⟨hrid, _⟩ := enrichExisting_id_eid hb st.blobs ex msg
    cases hupd : (enrichExisting hb st.blobs ex msg).wasUpdated with
    | false =>
      simp only [Bool.false_eq_true, if_false, List.map_map]
      exact Or.inl True.intro
    | true =>
      simp only [if_true]
      rw [putById_replace _ _ ex hexmem (by rw [hrid])]
      left
      exact map_id_subst st.store (enrichExisting hb st.blobs ex msg).record

theorem fold_nodup_step (hb : Blob → String) (st : ImportState) (m : Message)
    (tids : List String)
    (hnd : ((m.id :: tids) ++ st.store.map (·.id)).Nodup)
    (ht : truthyS m.externalId = true) :
    (st.store.map (·.id)).Nodup ∧ (∀ r ∈ st.store, r.id ≠ m.id) ∧
    (tids ++ (importStep hb st m).store.map (·.id)).Nodup := by
  rw [List.cons_append, List.nodup_cons] at hnd
  have hndta : (tids ++ st.store.map (·.id)).Nodup := hnd.2
  have hmid : m.id ∉ tids ++ st.store.map (·.id) := hnd.1
  have hndst : (st.store.map (·.id)).Nodup := hndta.of_append_right
  have hfresh : ∀ r ∈ st.store, r.id ≠ m.id := by
    intro r hr hcon
    exact hmid (List.mem_append_right _ (by rw [← hcon]; exact List.mem_map_of_mem (·.id) hr))
  refine ⟨hndst, hfresh, ?_⟩
  rcases importStep_ids hb st m ht hfresh with hids | hids
  · rw [hids]
    exact hndta
  · rw [hids, ← List.append_assoc]
    have hperm : (m.id :: (tids ++ st.store.map (·.id))).Perm
        ((tids ++ st.store.map (·.id)) ++ [m.id]) :=
      (List.perm_append_singleton m.id _).symm
    exact (hperm.nodup_iff).1 (List.nodup_cons.2 ⟨hmid, hndta⟩)

theorem import_fold_preserves_ready (hb : Blob → String) (batch : List Message) :
    ∀ (st : ImportState) (e : String) (rs : List Reaction),
      ((batch.map (·.id) ++ st.store.map (·.id)).Nodup) →
      (∀ m ∈ batch, truthyS m.externalId = true) →
      (∀ m ∈ batch, m.externalId.getD "" ≠ e) →
      ReadyFor st.store e rs →
      ReadyFor (batch.foldl (importStep hb) st).store e rs := by
  induction batch with
  | nil => exact fun st e rs _ _ _ h => h
  | cons m t ih =>
    intro st e rs hnd htr hne hready
    obtain ⟨hndst, hfresh, hnd'⟩ :=
      fold_nodup_step hb st m (t.map (·.id)) (by simpa using hnd) (htr m (List.mem_cons_self m t))
    have hstep := importStep_preserves_ready hb st m e rs (htr m (List.mem_cons_self m t))
      (hne m (List.mem_cons_self m t)) hndst hfresh hready
    exact ih (importStep hb st m) e rs hnd'
      (fun m' h => htr m' (List.mem_cons_of_mem m h))
      (fun m' h => hne m' (List.mem_cons_of_mem m h)) hstep

theorem import_fold_ready (hb : Blob → String) (batch : List Message) :
    ∀ (st : ImportState),
      ((batch.map (·.id) ++ st.store.map (·.id)).Nodup) →
      (∀ m ∈ batch, truthyS m.externalId = true) →
      ((batch.map (fun m => m.externalId.getD "")).Nodup) →
      ∀ m ∈ batch,
        ReadyFor (batch.foldl (importStep hb) st).store (m.externalId.getD "") m.reactions := by
  induction batch with
  | nil => intro st _ _ _ m hm; exact absurd hm (List.not_mem_nil m)
  | cons m0 t ih =>
    intro st hnd htr hend m hm
    obtain ⟨hndst, hfresh, hnd'⟩ :=
      fold_nodup_step hb st m0 (t.map (·.id)) (by simpa using hnd)
        (htr m0 (List.mem_cons_self m0 t))
    rw [List.map_cons, List.nodup_cons] at hend
    rcases List.mem_cons.1 hm with rfl | hmt
    · have hest := importStep_establishes_ready hb st m (htr m (List.mem_cons_self m t))
        hndst hfresh
      have hne' : ∀ m' ∈ t, m'.externalId.getD "" ≠ m.externalId.getD "" := by
        intro m' hm' hcon
        exact hend.1 (by rw [← hcon]; exact List.mem_map_of_mem _ hm')
      exact import_fold_preserves_ready hb t (importStep hb st m) _ _ hnd'
        (fun m' h => htr m' (List.mem_cons_of_mem m h)) hne' hest
    · exact ih (importStep hb st m0) hnd'
        (fun m' h => htr m' (List.mem_cons_of_mem m0 h)) hend.2 m hmt

theorem normalizeMessage_fields (hb : Blob → String) (m : Message) :
    (normalizeMessage hb m).externalId = m.externalId ∧
    (normalizeMessage hb m).id = m.id ∧
    (normalizeMessage hb m).reactions = m.reactions := by
  unfold normalizeMessage
  split
  · exact ⟨rfl, rfl, rfl⟩
  · exact ⟨rfl, rfl, rfl⟩

theorem dedupe_fold_file_none (hb : Blob → String) (l : List Attachment) :
    ∀ (seen : List (String × Attachment)),
      (∀ p ∈ seen, p.2.file = none) → (∀ a ∈ l, a.file = none) →
      ∀ p ∈ l.foldl (dedupeStep hb) seen, p.2.file = none := by
  induction l with
  | nil => exact fun seen hseen _ => hseen
  | cons a t ih =>
    intro seen hseen hl
    rw [List.foldl_cons]
    apply ih
    · unfold dedupeStep
      dsimp only
      split
      · exact hseen
      · intro p hp
        rcases List.mem_append.1 hp with hp | hp
        · exact hseen p hp
        · rw [List.mem_singleton] at hp
          subst hp
          dsimp only
          rw [(buildAttachmentKey_file_id hb a).1]
          exact hl a (List.mem_cons_self a t)
    · exact fun a' ha' => hl a' (List.mem_cons_of_mem a ha')

theorem normalizeMessage_file_none (hb : Blob → String) (m : Message)
    (h : ∀ a ∈ m.attachments, a.file = none) :
    ∀ a ∈ (normalizeMessage hb m).attachments, a.file = none := by
  unfold normalizeMessage
  split
  · exact h
  · intro a ha
    dsimp only at ha
    unfold dedupeAttachments at ha
    rcases List.mem_map.1 ha with ⟨p, hp, rfl⟩
    exact dedupe_fold_file_none hb m.attachments [] (by simp) h p hp

/-- C1 amended: for a batch in which every record has a non-empty
`externalId`, the external ids are pairwise distinct, the record ids are
fresh uuids (distinct among themselves and from the store's), and no
attachment carries a binary payload, a second `importMessages` run on the
identical batch imports 0 and leaves the message store exactly as the
first run left it (in particular the record count is unchanged). -/
theorem c1_reimport_idempotent (hb : Blob → String) (store0 : List Message)
    (blobs0 : List (String × Blob)) (msgs : List Message)
    (h1 : ∀ m ∈ msgs, truthyS m.externalId = true)
    (h2 : (msgs.map (fun m => m.externalId.getD "")).Nodup)
    (h3 : ∀ m ∈ msgs, ∀ a ∈ m.attachments, a.file = none)
    (h4 : (msgs.map (·.id) ++ store0.map (·.id)).Nodup) :
    (importMessages hb (importMessages hb store0 blobs0 msgs).store
        (importMessages hb store0 blobs0 msgs).blobs msgs).imported = 0 ∧
    (importMessages hb (importMessages hb store0 blobs0 msgs).store
        (importMessages hb store0 blobs0 msgs).blobs msgs).store =
      (importMessages hb store0 blobs0 msgs).store ∧
    (importMessages hb (importMessages hb store0 blobs0 msgs).store
        (importMessages hb store0 blobs0 msgs).blobs msgs).store.length =
      (importMessages hb store0 blobs0 msgs).store.length := by
  have htrn : ∀ nm ∈ msgs.map (normalizeMessage hb), truthyS nm.externalId = true := by
    intro nm hnm
    rcases List.mem_map.1 hnm with ⟨m, hm, rfl⟩
    rw [(normalizeMessage_fields hb m).1]
    exact h1 m hm
  have hidsn : (msgs.map (normalizeMessage hb)).map (·.id) = msgs.map (·.id) := by
    rw [List.map_map]
    apply List.map_congr_left
    intro m _
    exact (normalizeMessage_fields hb m).2.1
  have heidsn : (msgs.map (normalizeMessage hb)).map (fun m => m.externalId.getD "") =
      msgs.map (fun m => m.externalId.getD "") := by
    rw [List.map_map]
    apply List.map_congr_left
    intro m _
    simp only [Function.comp]
    rw [(normalizeMessage_fields hb m).1]
  have hready := import_fold_ready hb (msgs.map (normalizeMessage hb))
    { store := store0, blobs := blobs0, imported := 0 }
    (by rw [hidsn]; exact h4) htrn (by rw [heidsn]; exact h2)
  have hfiles : ∀ nm ∈ msgs.map (normalizeMessage hb), ∀ a ∈ nm.attachments, a.file = none := by
    intro nm hnm
    rcases List.mem_map.1 hnm with ⟨m, hm, rfl⟩
    exact normalizeMessage_file_none hb m (h3 m hm)
  have hnoop := import_fold_noop hb (msgs.map (normalizeMessage hb))
    { store := (importMessages hb store0 blobs0 msgs).store
      blobs := (importMessages hb store0 blobs0 msgs).blobs
      imported := 0 }
    (fun nm hnm => ⟨htrn nm hnm, hfiles nm hnm, hready nm hnm⟩)
  have hrun2 : importMessages hb (importMessages hb store0 blobs0 msgs).store
      (importMessages hb store0 blobs0 msgs).blobs msgs =
      { store := (importMessages hb store0 blobs0 msgs).store
        blobs := (importMessages hb store0 blobs0 msgs).blobs
        imported := 0 } := hnoop
  rw [hrun2]
  exact ⟨rfl, rfl, rfl⟩

/-- C1 witness: the amended idempotence at a concrete one-message batch. -/
theorem c1_witness :
    (importMessages (fun _ => "H")
        (importMessages (fun _ => "H") [] []
          [{ id := "id1", chatId := "c1", senderId := "s", content := "x", timestamp := 0,
             status := "read", attachments := [], quotedText := none, quotedSender := none,
             reactions := [], source := none, externalId := some "e" }]).store
        (importMessages (fun _ => "H") [] []
          [{ id := "id1", chatId := "c1", senderId := "s", content := "x", timestamp := 0,
             status := "read", attachments := [], quotedText := none, quotedSender := none,
             reactions := [], source := none, externalId := some "e" }]).blobs
        [{ id := "id1", chatId := "c1", senderId := "s", content := "x", timestamp := 0,
           status := "read", attachments := [], quotedText := none, quotedSender := none,
           reactions := [], source := none, externalId := some "e" }]).imported = 0 :=
  (c1_reimport_idempotent (fun _ => "H") [] []
    [{ id := "id1", chatId := "c1", senderId := "s", content := "x", timestamp := 0,
       status := "read", attachments := [], quotedText := none, quotedSender := none,
       reactions := [], source := none, externalId := some "e" }]
    (by decide) (by decide) (by decide) (by decide)).1

/-- C1 counterexample: re-importing the identical batch is not counted as
a no-op (a) when a record carries an attachment binary — the blob-rewrite
path marks the record updated, so the second run returns `imported = 1`
even though the record count stays equal — and (b) when two batch records
share an externalId with different reactions: the stored reactions
ping-pong, so the second run counts both records as updates. -/
theorem c1_counterexample :
    let hb0 : Blob → String := fun _ => "H"
    let att : Attachment :=
      { id := "a1", atype := "image", fileName := "f.jpg", mimeType := some "image/jpeg",
        size := some 1, file := some { data := [7], btype := "image/jpeg" },
        contentHash := none }
    let m : Message :=
      { id := "id1", chatId := "c1", senderId := "s", content := "x", timestamp := 0,
        status := "read", attachments := [att], quotedText := none, quotedSender := none,
        reactions := [], source := none, externalId := some "e" }
    let r1 := importMessages hb0 [] [] [m]
    let r2 := importMessages hb0 r1.store r1.blobs [m]
    let p1 : Message :=
      { id := "id2", chatId := "c1", senderId := "s", content := "x", timestamp := 0,
        status := "read", attachments := [], quotedText := none, quotedSender := none,
        reactions := [{ emoji := "a", count := 1 }], source := none, externalId := some "g" }
    let p2 : Message :=
      { id := "id3", chatId := "c1", senderId := "s", content := "x", timestamp := 0,
        status := "read", attachments := [], quotedText := none, quotedSender := none,
        reactions := [{ emoji := "b", count := 1 }], source := none, externalId := some "g" }
    let q1 := importMessages hb0 [] [] [p1, p2]
    let q2 := importMessages hb0 q1.store q1.blobs [p1, p2]
    (r1.imported = 1 ∧ r2.imported = 1 ∧ r2.store.length = r1.store.length) ∧
      q2.imported = 2 := by
  refine ⟨⟨by decide, by decide, by decide⟩, by decide⟩

theorem putById_mem (s : List Message) (m r : Message) (hr : r ∈ putById s m) :
    r ∈ s ∨ r = m := by
  unfold putById at hr
  split at hr
  · rcases List.mem_map.1 hr with ⟨x, hx, hxe⟩
    by_cases h : x.id = m.id
    · rw [if_pos h] at hxe
      exact Or.inr hxe.symm
    · rw [if_neg h] at hxe
      exact Or.inl (hxe ▸ hx)
  · rcases List.mem_append.1 hr with h | h
    · exact Or.inl h
    · exact Or.inr (List.mem_singleton.1 h)

theorem dedupeAttachments_file_none (hb : Blob → String) (l : List Attachment)
    (h : ∀ a ∈ l, a.file = none) :
    ∀ a ∈ dedupeAttachments hb l, a.file = none := by
  intro a ha
  unfold dedupeAttachments at ha
  rcases List.mem_map.1 ha with ⟨p, hp, rfl⟩
  exact dedupe_fold_file_none hb l [] (by simp) h p hp

theorem buildExistingByKey_fst (hb : Blob → String) (atts : List Attachment) :
    (buildExistingByKey hb atts).1 =
      atts.map (fun a => (buildAttachmentKey hb a).2) := by
  unfold buildExistingByKey
  suffices h : ∀ (l : List Attachment) (acc : List Attachment × List (String × Attachment)),
      (l.foldl
        (fun (acc : List Attachment × List (String × Attachment)) a =>
          let ka := buildAttachmentKey hb a
          (acc.1 ++ [ka.2], alistSet acc.2 ka.1 ka.2)) acc).1 =
      acc.1 ++ l.map (fun a => (buildAttachmentKey hb a).2) by
    simpa using h atts ([], [])
  intro l
  induction l with
  | nil => intro acc; simp
  | cons x t ih =>
    intro acc
    rw [List.foldl_cons, ih]
    simp

theorem enrichAttachmentStep_updated (hb : Blob → String) (st : AttLoopState)
    (na : Attachment) :
    (enrichAttachmentStep hb st na).updated = st.updated ∨
    ∃ x, (enrichAttachmentStep hb st na).updated = st.updated ++ [x] ∧ x.file = none := by
  unfold enrichAttachmentStep
  split
  · exact Or.inl rfl
  · dsimp only
    split
    · exact Or.inr ⟨_, rfl, rfl⟩
    · exact Or.inl rfl

theorem enrich_fold_updated (hb : Blob → String) (l : List Attachment) :
    ∀ st : AttLoopState, ∃ rest : List Attachment,
      (l.foldl (enrichAttachmentStep hb) st).updated = st.updated ++ rest ∧
      ∀ x ∈ rest, x.file = none := by
  induction l with
  | nil => exact fun st => ⟨[], by simp, by simp⟩
  | cons a t ih =>
    intro st
    rw [List.foldl_cons]
    rcases ih (enrichAttachmentStep hb st a) with ⟨rest, hrest, hfile⟩
    rcases enrichAttachmentStep_updated hb st a with h | ⟨x, hx, hxf⟩
    · exact ⟨rest, by rw [hrest, h], hfile⟩
    · refine ⟨x :: rest, ?_, ?_⟩
      · rw [hrest, hx]
        simp
      · intro y hy
        rcases List.mem_cons.1 hy with rfl | hy
        · exact hxf
        · exact hfile y hy

theorem enrichAttachments_attachments_cases (hb : Blob → String)
    (blobs : List (String × Blob)) (existing msg : Message) :
    (enrichAttachments hb blobs existing msg).record.attachments = existing.attachments ∨
    (enrichAttachments hb blobs existing msg).record.attachments =
      (buildExistingByKey hb existing.attachments).1 ∨
    ∃ rest : List Attachment, (∀ x ∈ rest, x.file = none) ∧
      (enrichAttachments hb blobs existing msg).record.attachments =
        dedupeAttachments hb ((buildExistingByKey hb existing.attachments).1 ++ rest) := by
  unfold enrichAttachments
  dsimp only
  split
  · exact Or.inl rfl
  · split
    · refine Or.inr (Or.inr ?_)
      rcases enrich_fold_updated hb msg.attachments
        { updated := (buildExistingByKey hb existing.attachments).1
          byKey := (buildExistingByKey hb existing.attachments).2
          blobs := blobs
          wasUpdated := false } with ⟨rest, hrest, hf⟩
      exact ⟨rest, hf, by rw [hrest]⟩
    · exact Or.inr (Or.inl rfl)

theorem enrichExisting_attachments_eq (hb : Blob → String)
    (blobs : List (String × Blob)) (existing msg : Message) :
    (enrichExisting hb blobs existing msg).record.attachments =
      (enrichAttachments hb blobs existing msg).record.attachments := by
  unfold enrichExisting
  dsimp only
  split
  · rfl
  · rfl

theorem buildExistingByKey_fst_file_none (hb : Blob → String) (atts : List Attachment)
    (h : ∀ a ∈ atts, a.file = none) :
    ∀ a ∈ (buildExistingByKey hb atts).1, a.file = none := by
  rw [buildExistingByKey_fst]
  intro a ha
  rcases List.mem_map.1 ha with ⟨b, hb2, rfl⟩
  rw [(buildAttachmentKey_file_id hb b).1]
  exact h b hb2

theorem enrichExisting_file_none (hb : Blob → String) (blobs : List (String × Blob))
    (existing msg : Message)
    (hex : ∀ a ∈ existing.attachments, a.file = none) :
    ∀ a ∈ (enrichExisting hb blobs existing msg).record.attachments, a.file = none := by
  rw [enrichExisting_attachments_eq]
  rcases enrichAttachments_attachments_cases hb blobs existing msg with h | h | ⟨rest, hrf, h⟩
  · rw [h]
    exact hex
  · rw [h]
    exact buildExistingByKey_fst_file_none hb existing.attachments hex
  · rw [h]
    apply dedupeAttachments_file_none
    intro a ha
    rcases List.mem_append.1 ha with ha | ha
    · exact buildExistingByKey_fst_file_none hb existing.attachments hex a ha
    · exact hrf a ha

theorem importStep_file_none (hb : Blob → String) (st : ImportState) (msg : Message)
    (ht : truthyS msg.externalId = true)
    (hst : ∀ r ∈ st.store, ∀ a ∈ r.attachments, a.file = none) :
    ∀ r ∈ (importStep hb st msg).store, ∀ a ∈ r.attachments, a.file = none := by
  unfold importStep
  rw [if_pos ht]
  cases hfind : findByExternalId st.store (msg.externalId.getD "") with
  | none =>
    dsimp only
    intro r hr
    rcases putById_mem st.store _ r hr with hr | rfl
    · exact hst r hr
    · intro a ha
      rcases List.mem_map.1 ha with ⟨b, hb2, rfl⟩
      rfl
  | some existing =>
    dsimp only
    split
    · intro r hr
      rcases putById_mem st.store _ r hr with hr | rfl
      · exact hst r hr
      · exact enrichExisting_file_none hb st.blobs existing msg
          (hst existing (findByExternalId_mem st.store _ existing hfind).1)
    · exact hst

theorem import_fold_file_none (hb : Blob → String) (msgs : List Message) :
    ∀ st : ImportState,
      (∀ m ∈ msgs, truthyS m.externalId = true) →
      (∀ r ∈ st.store, ∀ a ∈ r.attachments, a.file = none) →
      ∀ r ∈ (msgs.foldl (importStep hb) st).store, ∀ a ∈ r.attachments, a.file = none := by
  induction msgs with
  | nil => exact fun st _ hst => hst
  | cons m t ih =>
    intro st hT hst
    rw [List.foldl_cons]
    exact ih _ (fun x hx => hT x (List.mem_cons_of_mem m hx))
      (importStep_file_none hb st m (hT m (List.mem_cons_self m t)) hst)

theorem saveAttachmentBlobs_cons (a : Attachment) (t : List Attachment)
    (bs : List (String × Blob)) :
    saveAttachmentBlobs (a :: t) bs =
      saveAttachmentBlobs t
        (match a.file with | some f => alistSet bs a.id f | none => bs) := rfl

theorem saveAttachmentBlobs_get_other (t : List Attachment) (k : String)
    (h : ∀ a ∈ t, a.id ≠ k) :
    ∀ bs : List (String × Blob),
      alistGet (saveAttachmentBlobs t bs) k = alistGet bs k := by
  induction t with
  | nil => exact fun bs => rfl
  | cons a t ih =>
    intro bs
    rw [saveAttachmentBlobs_cons,
      ih (fun x hx => h x (List.mem_cons_of_mem a hx))]
    cases hf : a.file with
    | none => rfl
    | some f => exact alistGet_set_other bs a.id k f (h a (List.mem_cons_self a t)).symm

theorem saveAttachmentBlobs_get (atts : List Attachment)
    (hnd : (atts.map (fun a => a.id)).Nodup) :
    ∀ bs : List (String × Blob), ∀ a ∈ atts, ∀ f, a.file = some f →
      alistGet (saveAttachmentBlobs atts bs) a.id = some f := by
  induction atts with
  | nil => intro bs a ha; exact absurd ha (List.not_mem_nil a)
  | cons x t ih =>
    intro bs a ha f hf
    rw [saveAttachmentBlobs_cons]
    rw [List.map_cons] at hnd
    rcases List.mem_cons.1 ha with rfl | ha
    · have hne : ∀ b ∈ t, b.id ≠ a.id := by
        intro b hb2 he
        exact (List.nodup_cons.1 hnd).1 (he ▸ List.mem_map_of_mem (fun q => q.id) hb2)
      rw [saveAttachmentBlobs_get_other t a.id hne, hf]
      exact alistGet_set_self bs a.id f
    · exact ih (List.nodup_cons.1 hnd).2 _ a ha f hf

/-- C5 amended: the strip-before-persist invariant holds for every record
with a truthy `externalId` — starting from a metadata store with no binary
payloads, every record in the store after `importMessages` still carries
no attachment binary, and on the first-time-seen path each attachment's
binary is written to the blob store under the attachment's id (given the
per-record uuid-fresh, hence distinct, attachment ids). A record without
an `externalId` is stored unconditionally as-is, so it is exempt from the
invariant (see the counterexample). -/
theorem c5_file_stripped (hb : Blob → String) (store0 : List Message)
    (blobs0 : List (String × Blob)) (msgs : List Message)
    (h0 : ∀ r ∈ store0, ∀ a ∈ r.attachments, a.file = none)
    (ht : ∀ m ∈ msgs, truthyS m.externalId = true) :
    (∀ r ∈ (importMessages hb store0 blobs0 msgs).store,
      ∀ a ∈ r.attachments, a.file = none) ∧
    (∀ (st : ImportState) (msg : Message),
      truthyS msg.externalId = true →
      findByExternalId st.store (msg.externalId.getD "") = none →
      (msg.attachments.map (fun a => a.id)).Nodup →
      ∀ a ∈ msg.attachments, ∀ f, a.file = some f →
        alistGet (importStep hb st msg).blobs a.id = some f) := by
  constructor
  · unfold importMessages
    apply import_fold_file_none
    · intro nm hnm
      rcases List.mem_map.1 hnm with ⟨m, hm, rfl⟩
      rw [(normalizeMessage_fields hb m).1]
      exact ht m hm
    · exact h0
  · intro st msg htm hfind hnd a ha f hf
    unfold importStep
    rw [if_pos htm, hfind]
    exact saveAttachmentBlobs_get msg.attachments hnd st.blobs a ha f hf

/-- C5 witness: the amended invariant at a concrete one-message batch and
a concrete first-time-seen import step. -/
theorem c5_witness :
    (∀ r ∈ (importMessages (fun _ => "H") [] []
        [{ id := "id1", chatId := "c1", senderId := "s", content := "x", timestamp := 0,
           status := "read",
           attachments :=
             [{ id := "a1", atype := "image", fileName := "f.jpg",
                mimeType := some "image/jpeg", size := some 1,
                file := some { data := [7], btype := "image/jpeg" },
                contentHash := none }],
           quotedText := none, quotedSender := none,
           reactions := [], source := none, externalId := some "e" }]).store,
      ∀ a ∈ r.attachments, a.file = none) ∧
    (∀ (st : ImportState) (msg : Message),
      truthyS msg.externalId = true →
      findByExternalId st.store (msg.externalId.getD "") = none →
      (msg.attachments.map (fun a => a.id)).Nodup →
      ∀ a ∈ msg.attachments, ∀ f, a.file = some f →
        alistGet (importStep (fun _ => "H") st msg).blobs a.id = some f) :=
  c5_file_stripped (fun _ => "H") [] []
    [{ id := "id1", chatId := "c1", senderId := "s", content := "x", timestamp := 0,
       status := "read",
       attachments :=
         [{ id := "a1", atype := "image", fileName := "f.jpg",
            mimeType := some "image/jpeg", size := some 1,
            file := some { data := [7], btype := "image/jpeg" },
            contentHash := none }],
       quotedText := none, quotedSender := none,
       reactions := [], source := none, externalId := some "e" }]
    (by simp) (by decide)

/-- C5 counterexample: a record with no `externalId` is stored verbatim by
the always-new path — its attachment keeps the binary payload inside the
metadata store and nothing is written to the blob store, contradicting the
claimed strip-before-persist invariant for that path. -/
theorem c5_counterexample :
    let hb0 : Blob → String := fun _ => "H"
    let att : Attachment :=
      { id := "a1", atype := "image", fileName := "f.jpg", mimeType := some "image/jpeg",
        size := some 1, file := some { data := [7], btype := "image/jpeg" },
        contentHash := none }
    let m : Message :=
      { id := "id1", chatId := "c1", senderId := "s", content := "x", timestamp := 0,
        status := "read", attachments := [att], quotedText := none, quotedSender := none,
        reactions := [], source := none, externalId := none }
    let r := importMessages hb0 [] [] [m]
    r.imported = 1 ∧ r.blobs = [] ∧
      r.store.map (fun q => q.attachments.map (fun a => a.file.isSome)) = [[true]] := by
  refine ⟨by decide, by decide, by decide⟩

theorem dedupe_fold_key_stable (hb : Blob → String) (l : List Attachment) :
    ∀ seen : List (String × Attachment),
      (∀ p ∈ seen, attKey hb p.2 = p.1) →
      ∀ p ∈ l.foldl (dedupeStep hb) seen, attKey hb p.2 = p.1 := by
  induction l with
  | nil => exact fun seen hseen => hseen
  | cons a t ih =>
    intro seen hseen
    rw [List.foldl_cons]
    apply ih
    unfold dedupeStep
    dsimp only
    split
    · exact hseen
    · intro p hp
      rcases List.mem_append.1 hp with hp | hp
      · exact hseen p hp
      · rw [List.mem_singleton] at hp
        subst hp
        exact buildAttachmentKey_key_stable hb a

theorem dedupe_fold_keys_mono (hb : Blob → String) (l : List Attachment) :
    ∀ (seen : List (String × Attachment)) (k : String),
      k ∈ seen.map (fun p => p.1) →
      k ∈ (l.foldl (dedupeStep hb) seen).map (fun p => p.1) := by
  induction l with
  | nil => exact fun seen k hk => hk
  | cons a t ih =>
    intro seen k hk
    rw [List.foldl_cons]
    apply ih
    unfold dedupeStep
    dsimp only
    split
    · exact hk
    · rw [List.map_append]
      exact List.mem_append_left _ hk

theorem dedupe_fold_keys_present (hb : Blob → String) (l : List Attachment) :
    ∀ (seen : List (String × Attachment)) (a : Attachment), a ∈ l →
      attKey hb a ∈ (l.foldl (dedupeStep hb) seen).map (fun p => p.1) := by
  induction l with
  | nil => intro seen a ha; exact absurd ha (List.not_mem_nil a)
  | cons x t ih =>
    intro seen a ha
    rw [List.foldl_cons]
    rcases List.mem_cons.1 ha with rfl | ha
    · apply dedupe_fold_keys_mono
      unfold dedupeStep
      dsimp only
      split
      · rw [← alistHas_iff_mem_keys]
        assumption
      · rw [List.map_append]
        exact List.mem_append_right _ (by simp [attKey])
    · exact ih _ a ha

theorem dedupeAttachments_keys (hb : Blob → String) (l : List Attachment) :
    ∀ k ∈ attKeys hb l, k ∈ attKeys hb (dedupeAttachments hb l) := by
  intro k hk
  unfold attKeys at hk
  rcases List.mem_map.1 hk with ⟨a, ha, rfl⟩
  have h2 := dedupe_fold_keys_present hb l [] a ha
  rcases List.mem_map.1 h2 with ⟨p, hp, hpe⟩
  have h1 := dedupe_fold_key_stable hb l [] (by simp) p hp
  unfold attKeys dedupeAttachments
  rw [List.map_map]
  refine List.mem_map.2 ⟨p, hp, ?_⟩
  rw [Function.comp_apply]
  rw [h1, hpe]

theorem attKeys_append (hb : Blob → String) (l1 l2 : List Attachment) :
    attKeys hb (l1 ++ l2) = attKeys hb l1 ++ attKeys hb l2 := by
  unfold attKeys
  rw [List.map_append]

theorem buildExistingByKey_keys (hb : Blob → String) (atts : List Attachment) :
    attKeys hb (buildExistingByKey hb atts).1 = attKeys hb atts := by
  rw [buildExistingByKey_fst]
  unfold attKeys
  rw [List.map_map]
  apply List.map_congr_left
  intro a _
  rw [Function.comp_apply]
  exact buildAttachmentKey_key_stable hb a

/-- C9: enrichment never loses attachment identity — every content-identity
key represented in the stored record's attachment list before the merge of
an incoming record with the same externalId is still represented in the
record the merge produces (the merge appends new keys or rewrites blobs
under existing attachment ids; a key is never dropped). -/
theorem c9_enrichment_preserves_keys (hb : Blob → String)
    (bs : List (String × Blob)) (existing msg : Message) :
    ∀ k ∈ attKeys hb existing.attachments,
      k ∈ attKeys hb (enrichExisting hb bs existing msg).record.attachments := by
  intro k hk
  rw [enrichExisting_attachments_eq]
  rcases enrichAttachments_attachments_cases hb bs existing msg with h | h | ⟨rest, hrf, h⟩
  · rw [h]
    exact hk
  · rw [h, buildExistingByKey_keys]
    exact hk
  · rw [h]
    apply dedupeAttachments_keys
    rw [attKeys_append, buildExistingByKey_keys]
    exact List.mem_append_left _ hk

/-- C9 witness: the key of a stored attachment survives a concrete merge
that brings in a new binary-carrying attachment. -/
theorem c9_witness :
    "hash:K" ∈ attKeys (fun _ => "H")
      (enrichExisting (fun _ => "H") []
        { id := "id1", chatId := "c1", senderId := "s", content := "x", timestamp := 0,
          status := "read",
          attachments :=
            [{ id := "a1", atype := "image", fileName := "f.jpg",
               mimeType := some "image/jpeg", size := some 1, file := none,
               contentHash := some "K" }],
          quotedText := none, quotedSender := none,
          reactions := [], source := none, externalId := some "e" }
        { id := "id2", chatId := "c1", senderId := "s", content := "y", timestamp := 1,
          status := "read",
          attachments :=
            [{ id := "a2", atype := "image", fileName := "g.jpg",
               mimeType := some "image/jpeg", size := some 2,
               file := some { data := [9], btype := "image/jpeg" },
               contentHash := none }],
          quotedText := none, quotedSender := none,
          reactions := [], source := none, externalId := some "e" }).record.attachments :=
  c9_enrichment_preserves_keys (fun _ => "H") []
    { id := "id1", chatId := "c1", senderId := "s", content := "x", timestamp := 0,
      status := "read",
      attachments :=
        [{ id := "a1", atype := "image", fileName := "f.jpg",
           mimeType := some "image/jpeg", size := some 1, file := none,
           contentHash := some "K" }],
      quotedText := none, quotedSender := none,
      reactions := [], source := none, externalId := some "e" }
    { id := "id2", chatId := "c1", senderId := "s", content := "y", timestamp := 1,
      status := "read",
      attachments :=
        [{ id := "a2", atype := "image", fileName := "g.jpg",
           mimeType := some "image/jpeg", size := some 2,
           file := some { data := [9], btype := "image/jpeg" },
           contentHash := none }],
      quotedText := none, quotedSender := none,
      reactions := [], source := none, externalId := some "e" }
    "hash:K" (by decide)
